import Mathlib

/-!
Verification development for the R-resources resource compiler.

The Rust sources are shallowly embedded: Rust `String` becomes Lean `String`,
`Vec<T>` becomes `List T`, `HashMap<String, Vec<(String, ResourceValue)>>`
becomes an association list `List (String, List (String, ResourceValue))`
whose outer order models the (arbitrary) hash-map iteration order, and
`HashSet<String>` becomes `List String`.  Machine integers are parsed into
`Int` with explicit range checks mirroring Rust's `FromStr` overflow
behaviour.  IEEE-754 doubles are not reconstructed: wherever the Rust code
turns a literal into an `f64` and later renders the `f64` with `Display`,
the embedding keeps the literal and applies an abstract rendering function
(a universally quantified parameter `fdisp : String → String` standing for
the composition parse-then-Display); none of the verified properties depends
on the value of that function.
-/

namespace RRes

/-! ## Models of Rust standard-library string and number primitives -/

/-- Digits of a decimal string, `none` when empty or a non-digit occurs.
Models the digit-accumulation loop shared by Rust's integer `FromStr`. -/
def parseDigits? (cs : List Char) : Option Nat :=
  match cs with
  | [] => none
  | _ =>
    cs.foldl
      (fun acc c =>
        match acc with
        | none => none
        | some n => if c.isDigit then some (n * 10 + (c.toNat - '0'.toNat)) else none)
      (some 0)

/-- Rust `str::parse::<iN>` for a signed width with magnitude bound `bound = 2^(N-1)`:
optional sign, at least one digit, value in `[-bound, bound-1]`. -/
def parseSigned (bound : Nat) (s : String) : Option Int :=
  let cs := s.data
  let (neg, digits) :=
    match cs with
    | '+' :: rest => (false, rest)
    | '-' :: rest => (true, rest)
    | rest => (false, rest)
  match parseDigits? digits with
  | none => none
  | some n =>
    if neg then
      if n ≤ bound then some (-(n : Int)) else none
    else
      if n + 1 ≤ bound then some (n : Int) else none

/-- Rust `str::parse::<uN>` for an unsigned width with bound `bound = 2^N`:
optional `+`, at least one digit, value `< bound`. -/
def parseUnsigned (bound : Nat) (s : String) : Option Nat :=
  let cs := s.data
  let digits :=
    match cs with
    | '+' :: rest => rest
    | _ => cs
  match parseDigits? digits with
  | none => none
  | some n => if n < bound then some n else none

/-- Rust `str::parse::<i64>`. -/
def parseI64 (s : String) : Option Int := parseSigned (2 ^ 63) s

/-- Success predicate of Rust `str::parse::<f64>` / `::<f32>` (since Rust 1.55
overflow yields infinity, so success is purely a grammar check):
optional sign, then `inf`, `infinity`, `nan` (ASCII case-insensitive) or a
mantissa (`digits`, `digits.`, `digits.digits` or `.digits`) with an optional
exponent `(e|E) sign? digits`. -/
def floatMantissaOk (cs : List Char) : Bool :=
  let intPart := cs.takeWhile Char.isDigit
  let rest := cs.dropWhile Char.isDigit
  match rest with
  | [] => !intPart.isEmpty
  | '.' :: fracRest =>
    let frac := fracRest.takeWhile Char.isDigit
    let rest2 := fracRest.dropWhile Char.isDigit
    rest2.isEmpty && (!intPart.isEmpty || !frac.isEmpty)
  | _ => false

/-- Exponent-free split: mantissa and optional exponent part of a float literal. -/
def splitAtExp (cs : List Char) : List Char × Option (List Char) :=
  let mant := cs.takeWhile (fun c => c ≠ 'e' ∧ c ≠ 'E')
  let rest := cs.dropWhile (fun c => c ≠ 'e' ∧ c ≠ 'E')
  match rest with
  | [] => (mant, none)
  | _ :: expPart => (mant, some expPart)

/-- Success predicate of Rust float parsing, see `floatMantissaOk`. -/
def floatFromStrOk (s : String) : Bool :=
  let cs :=
    match s.data with
    | '+' :: rest => rest
    | '-' :: rest => rest
    | rest => rest
  let lower := String.mk (cs.map Char.toLower)
  if lower = "inf" || lower = "infinity" || lower = "nan" then true
  else
    let (mant, exp) := splitAtExp cs
    floatMantissaOk mant &&
      (match exp with
       | none => true
       | some e =>
         let ds :=
           match e with
           | '+' :: rest => rest
           | '-' :: rest => rest
           | rest => rest
         !ds.isEmpty && ds.all Char.isDigit)

/-- Success predicate of `bigdecimal::BigDecimal::from_str`: optional sign,
digits with at most one decimal point (at least one digit), optional
`(e|E) sign? digits` exponent.  The crate's handling of corner cases such as
a trailing lone dot is not exercised by any claim. -/
def bigDecimalFromStrOk (s : String) : Bool :=
  let cs :=
    match s.data with
    | '+' :: rest => rest
    | '-' :: rest => rest
    | rest => rest
  let (mant, exp) := splitAtExp cs
  let intPart := mant.takeWhile Char.isDigit
  let rest := mant.dropWhile Char.isDigit
  let mantOk :=
    match rest with
    | [] => !intPart.isEmpty
    | '.' :: fracRest => fracRest.all Char.isDigit && (!intPart.isEmpty || !fracRest.isEmpty)
    | _ => false
  mantOk &&
    (match exp with
     | none => true
     | some e =>
       let ds :=
         match e with
         | '+' :: rest => rest
         | '-' :: rest => rest
         | rest => rest
       !ds.isEmpty && ds.all Char.isDigit)

/-- Rust `str::parse::<bool>`: exactly `true` or `false`. -/
def parseBool (s : String) : Option Bool :=
  if s = "true" then some true else if s = "false" then some false else none

/-- One character of Rust `char::escape_debug`.  Backslash, both quotes and
the common control characters are escaped; other printable characters are
kept.  (Rust additionally renders non-printable characters as unicode
escapes, which no claim exercises.) -/
def escapeDebugChar (c : Char) : String :=
  if c = '\\' then "\\\\"
  else if c = '"' then "\\\""
  else if c = '\'' then "\\'"
  else if c = '\n' then "\\n"
  else if c = '\t' then "\\t"
  else if c = '\r' then "\\r"
  else if c = (Char.ofNat 0) then "\\0"
  else String.singleton c

/-- Rust `str::escape_debug` (character-wise). -/
def escapeDebug (s : String) : String :=
  String.join (s.data.map escapeDebugChar)

/-- ASCII upper-casing of a string, modelling Rust `str::to_uppercase` on the
identifier characters this compiler produces. -/
def toUpperAscii (s : String) : String := String.mk (s.data.map Char.toUpper)

/-- ASCII lower-casing, modelling Rust `str::to_ascii_lowercase` /
`str::to_lowercase` on ASCII input. -/
def toLowerAscii (s : String) : String := String.mk (s.data.map Char.toLower)

/-- Rust `str::trim` (on the ASCII whitespace the resource files use):
drop leading and trailing whitespace characters. -/
def strTrim (s : String) : String :=
  String.mk (((s.data.dropWhile Char.isWhitespace).reverse.dropWhile Char.isWhitespace).reverse)

/-- Rust `str::contains(char)`. -/
def strContains (s : String) (c : Char) : Bool := s.data.contains c

/-- Accumulator loop of `strSplitOnChar`. -/
def splitOnCharAux (c : Char) : List Char → List Char → List String
  | [], acc => [String.mk acc.reverse]
  | x :: rest, acc =>
    if x = c then String.mk acc.reverse :: splitOnCharAux c rest []
    else splitOnCharAux c rest (x :: acc)

/-- Rust `str::split(char)`: every separator occurrence splits, empty pieces
included. -/
def strSplitOnChar (c : Char) (s : String) : List String :=
  splitOnCharAux c s.data []

/-! ## `codegen` data model (src/codegen/types.rs) -/

/-- The explicit Rust type requested via a `type` attribute
(src/codegen/types.rs, enum NumberType). -/
inductive NumberType where
  | I8 | I16 | I32 | I64 | U8 | U16 | U32 | U64 | F32 | F64
deriving DecidableEq, Repr

/-- NumberType::as_str (src/codegen/types.rs). -/
def NumberType.as_str : NumberType → String
  | .I8 => "i8"
  | .I16 => "i16"
  | .I32 => "i32"
  | .I64 => "i64"
  | .U8 => "u8"
  | .U16 => "u16"
  | .U32 => "u32"
  | .U64 => "u64"
  | .F32 => "f32"
  | .F64 => "f64"

/-- A parsed numeric value (src/codegen/types.rs, enum NumberValue).
`Float` carries the source literal; the Rust code stores the parsed `f64`,
which the embedding represents by the literal it was parsed from (rendering
is modelled by an abstract display function where emission needs it). -/
inductive NumberValue where
  | Int (value : Int)
  | Float (literal : String)
  | BigDecimal (raw : String)
  | Typed (literal : String) (ty : NumberType)
deriving DecidableEq, Repr

/-- A part of an interpolated string (src/codegen/types.rs). -/
inductive InterpolationPart where
  | Text (text : String)
  | Reference (resource_type : String) (key : String)
deriving DecidableEq, Repr

/-- Template parameter type (src/codegen/types.rs). -/
inductive TemplateParameterType where
  | String | Int | Float | Bool
deriving DecidableEq, Repr

/-- Template parameter definition (src/codegen/types.rs). -/
structure TemplateParameter where
  name : String
  param_type : TemplateParameterType
deriving DecidableEq, Repr

/-- A template with placeholders (src/codegen/types.rs). -/
structure Template where
  template : String
  parameters : List TemplateParameter
deriving DecidableEq, Repr

/-- Resource values (src/codegen/types.rs, enum ResourceValue).  `Float`,
`FloatArray` elements carry source literals, see `NumberValue.Float`. -/
inductive ResourceValue where
  | String (value : String)
  | Number (value : NumberValue)
  | Bool (value : Bool)
  | Color (value : String)
  | Url (value : String)
  | Dimension (value : String)
  | StringArray (items : List String)
  | IntArray (items : List Int)
  | FloatArray (items : List String)
  | Reference (resource_type : String) (key : String)
  | InterpolatedString (parts : List InterpolationPart)
  | Template (template : Template)
deriving DecidableEq, Repr

/-- The resource table: Rust `HashMap<String, Vec<(String, ResourceValue)>>`,
embedded as an association list whose outer order models the hash map's
iteration order.  A well-formed table has pairwise distinct outer keys. -/
abbrev RMap := List (String × List (String × ResourceValue))

instance {ε α : Type} [DecidableEq ε] [DecidableEq α] : DecidableEq (Except ε α) :=
  fun a b =>
    match a, b with
    | .ok x, .ok y => if h : x = y then isTrue (by rw [h]) else isFalse (by simp [h])
    | .error x, .error y => if h : x = y then isTrue (by rw [h]) else isFalse (by simp [h])
    | .ok _, .error _ => isFalse (by simp)
    | .error _, .ok _ => isFalse (by simp)

/-- HashMap::get, first match in the association list. -/
def rmapGet (res : RMap) (key : String) : Option (List (String × ResourceValue)) :=
  match res with
  | [] => none
  | (k, v) :: rest => if k = key then some v else rmapGet rest key

/-! ## Numeric classifier (src/codegen/parser/basic.rs) -/

/-- looks_like_integer (src/codegen/parser/basic.rs): no decimal point or
exponent marker. -/
def looks_like_integer (literal : String) : Bool :=
  !(strContains literal '.' || strContains literal 'e' || strContains literal 'E')

/-- parse_big_decimal (src/codegen/parser/basic.rs). -/
def parse_big_decimal (literal : String) : Except String NumberValue :=
  if bigDecimalFromStrOk literal then .ok (.BigDecimal literal)
  else .error ("Invalid number literal '" ++ literal ++ "'")

/-- format_float32 / format_float64 (src/codegen/parser/basic.rs), taking the
`Display` rendering of the parsed float: append `.0` unless a decimal point
or exponent marker is already present. -/
def format_float_str (s : String) : String :=
  if strContains s '.' || strContains s 'e' || strContains s 'E' then s else s ++ ".0"

/-- parse_explicit_number (src/codegen/parser/basic.rs).  `f32disp` and
`f64disp` model Rust's parse-then-Display round trip for the two float
widths; every other branch is exact. -/
def parse_explicit_number (f32disp f64disp : String → String)
    (literal type_hint : String) : Except String NumberValue :=
  let type_name := toLowerAscii (strTrim type_hint)
  let trimmed := strTrim literal
  if type_name = "i8" then
    match parseSigned (2 ^ 7) trimmed with
    | some v => .ok (.Typed (toString v) .I8)
    | none => .error ("'" ++ trimmed ++ "' does not fit in i8")
  else if type_name = "i16" then
    match parseSigned (2 ^ 15) trimmed with
    | some v => .ok (.Typed (toString v) .I16)
    | none => .error ("'" ++ trimmed ++ "' does not fit in i16")
  else if type_name = "i32" then
    match parseSigned (2 ^ 31) trimmed with
    | some v => .ok (.Typed (toString v) .I32)
    | none => .error ("'" ++ trimmed ++ "' does not fit in i32")
  else if type_name = "i64" then
    match parseSigned (2 ^ 63) trimmed with
    | some v => .ok (.Typed (toString v) .I64)
    | none => .error ("'" ++ trimmed ++ "' does not fit in i64")
  else if type_name = "u8" then
    match parseUnsigned (2 ^ 8) trimmed with
    | some v => .ok (.Typed (toString v) .U8)
    | none => .error ("'" ++ trimmed ++ "' does not fit in u8")
  else if type_name = "u16" then
    match parseUnsigned (2 ^ 16) trimmed with
    | some v => .ok (.Typed (toString v) .U16)
    | none => .error ("'" ++ trimmed ++ "' does not fit in u16")
  else if type_name = "u32" then
    match parseUnsigned (2 ^ 32) trimmed with
    | some v => .ok (.Typed (toString v) .U32)
    | none => .error ("'" ++ trimmed ++ "' does not fit in u32")
  else if type_name = "u64" then
    match parseUnsigned (2 ^ 64) trimmed with
    | some v => .ok (.Typed (toString v) .U64)
    | none => .error ("'" ++ trimmed ++ "' does not fit in u64")
  else if type_name = "f32" then
    if floatFromStrOk trimmed then .ok (.Typed (format_float_str (f32disp trimmed)) .F32)
    else .error ("'" ++ trimmed ++ "' is not a valid f32 literal")
  else if type_name = "f64" then
    if floatFromStrOk trimmed then .ok (.Typed (format_float_str (f64disp trimmed)) .F64)
    else .error ("'" ++ trimmed ++ "' is not a valid f64 literal")
  else if type_name = "bigdecimal" then parse_big_decimal literal
  else .error ("Unsupported number type '" ++ type_name ++ "'")

/-- parse_number_value (src/codegen/parser/basic.rs): trim; explicit type if
given; otherwise integer-looking literals try i64 then fall back to
BigDecimal, and the rest try f64 then fall back to BigDecimal. -/
def parse_number_value (f32disp f64disp : String → String)
    (text : String) (explicit_type : Option String) : Except String NumberValue :=
  let literal := strTrim text
  if literal = "" then .error "Number literal cannot be empty"
  else
    match explicit_type with
    | some type_hint => parse_explicit_number f32disp f64disp literal type_hint
    | none =>
      if looks_like_integer literal then
        match parseI64 literal with
        | some n => .ok (.Int n)
        | none => parse_big_decimal literal
      else if floatFromStrOk literal then .ok (.Float literal)
      else parse_big_decimal literal

/-! ## Identifier sanitizing (src/generator/utils.rs and src/codegen/generator.rs,
identical bodies) -/

/-- sanitize_identifier: replaces non-alphanumeric characters (except
underscores) with underscores. -/
def sanitize_identifier (s : String) : String :=
  String.mk (s.data.map (fun c => if c.isAlphanum || c = '_' then c else '_'))

/-! ## Reference validation (src/codegen/references.rs) -/

/-- resolve_reference_path (src/codegen/references.rs).  The last argument is
the Rust parameter controlling the crate-qualified form of the path. -/
def resolve_reference_path (resource_type key : String) (use_crate : Bool) : String :=
  let sanitized_key := toUpperAscii (sanitize_identifier key)
  if use_crate then "crate::" ++ resource_type ++ "::" ++ sanitized_key
  else resource_type ++ "::" ++ sanitized_key

/-- validate_references (src/codegen/references.rs): walks every resource of
every kind; each value that is a pure reference whose target kind table is
missing, or whose key is missing from that table, contributes one error
message; everything else contributes nothing. -/
def validate_references (resources : RMap) : List String :=
  resources.flatMap (fun rt_items =>
    rt_items.2.filterMap (fun nv =>
      match nv.2 with
      | .Reference resource_type key =>
        match rmapGet resources resource_type with
        | some target_resources =>
          if target_resources.any (fun p => p.1 = key) then none
          else
            some ("Unresolved reference in " ++ rt_items.1 ++ "." ++ nv.1 ++ ": @"
              ++ resource_type ++ "/" ++ key ++ " does not exist")
        | none =>
          some ("Invalid reference in " ++ rt_items.1 ++ "." ++ nv.1
            ++ ": resource type '" ++ resource_type ++ "' does not exist")
      | _ => none))

/-! ## Flat module generator (src/codegen/generator/flat.rs) -/

/-- ResourceEntry (src/codegen/generator/flat.rs). -/
structure ResourceEntry where
  resource_type : String
  namespace_path : List String
  leaf_name : String
  value : ResourceValue
deriving DecidableEq, Repr

/-- split_path_to_namespace (src/codegen/generator/flat.rs): split on `/`,
drop empty segments, sanitize; the last segment is the leaf. -/
def split_path_to_namespace (path : String) : List String × String :=
  let parts := (strSplitOnChar '/' path).filter (fun s => s ≠ "")
  match parts.reverse with
  | [] => ([], "")
  | [p] => ([], sanitize_identifier p)
  | leaf :: revInit => ((revInit.reverse).map sanitize_identifier, sanitize_identifier leaf)

/-- collect_entries (src/codegen/generator/flat.rs): flatten the resource
table in its iteration order, skipping entries whose leaf sanitizes to
empty.  (The Rust code pushes owned clones into a `Vec<ResourceEntry>`.) -/
def collect_entries (resources : RMap) : List ResourceEntry :=
  resources.flatMap (fun rt_items =>
    rt_items.2.filterMap (fun nv =>
      let split := split_path_to_namespace nv.1
      if split.2 = "" then none
      else some ⟨rt_items.1, split.1, split.2, nv.2⟩))

/-- Strict byte-lexicographic comparison of character lists, modelling
Rust's `Ord` on `String` (UTF-8 byte order, which coincides with code-point
order). -/
def charsLt : List Char → List Char → Bool
  | [], [] => false
  | [], _ :: _ => true
  | _ :: _, [] => false
  | a :: as, b :: bs =>
    if a.toNat < b.toNat then true
    else if b.toNat < a.toNat then false
    else charsLt as bs

/-- Rust `String` comparison `s1 < s2` used by `BTreeMap<String, _>`. -/
def strLt (s1 s2 : String) : Bool := charsLt s1.data s2.data

mutual
/-- NamespaceNode (src/codegen/generator/flat.rs).  The Rust struct stores a
`BTreeMap<String, NamespaceNode>` of children, kept in sorted key order,
which the embedding maintains as the key-sorted list `ChildMap`, and
`resource_indices : Vec<usize>` indexing into the entries vector; since the
indices are used only to fetch entries at emission time, the embedding
stores the referenced entries directly. -/
inductive Node where
  | mk (children : ChildMap) (resources : List ResourceEntry)

/-- The sorted children map of a namespace node (see `Node`). -/
inductive ChildMap where
  | nil
  | cons (key : String) (child : Node) (rest : ChildMap)
end

/-- Children of a namespace node. -/
def Node.children : Node → ChildMap
  | .mk cs _ => cs

/-- Resource list of a namespace node. -/
def Node.resources : Node → List ResourceEntry
  | .mk _ rs => rs

/-- Keys of a children map, in stored (sorted) order. -/
def ChildMap.keys : ChildMap → List String
  | .nil => []
  | .cons k _ rest => k :: rest.keys

/-- Lookup in a children map (BTreeMap::get). -/
def ChildMap.get : ChildMap → String → Option Node
  | .nil, _ => none
  | .cons k c rest, key => if k = key then some c else rest.get key

/-- NamespaceNode::default(). -/
def emptyNode : Node := .mk .nil []

/-- BTreeMap::entry(key).or_default() followed by updating the entry's node:
sorted-map update, inserting a fresh node at the key's sorted position when
it is absent. -/
def childUpdate (cs : ChildMap) (key : String) (f : Node → Node) : ChildMap :=
  match cs with
  | .nil => .cons key (f emptyNode) .nil
  | .cons k n rest =>
    if strLt key k then .cons key (f emptyNode) (.cons k n rest)
    else if key = k then .cons k (f n) rest
    else .cons k n (childUpdate rest key f)

/-- One iteration of build_namespace_tree's loop: walk the entry's namespace
path creating nodes as needed, and append the entry at the target node. -/
def insertPath : List String → Node → ResourceEntry → Node
  | [], .mk cs rs, e => .mk cs (rs ++ [e])
  | seg :: p, .mk cs rs, e => .mk (childUpdate cs seg (fun c => insertPath p c e)) rs

/-- build_namespace_tree (src/codegen/generator/flat.rs). -/
def build_namespace_tree (entries : List ResourceEntry) : Node :=
  entries.foldl (fun t e => insertPath e.namespace_path t e) emptyNode

/-- Comparison used by sort_namespace_tree to order entries by leaf name
(`sort_by` with `leaf_name.cmp`): not-greater-than on the leaf names. -/
def entryLe (a b : ResourceEntry) : Prop :=
  strLt b.leaf_name a.leaf_name = false

instance : DecidableRel entryLe := fun a b => by unfold entryLe; infer_instance

mutual
/-- sort_namespace_tree (src/codegen/generator/flat.rs): stable-sort each
node's resource list by leaf name (Rust `sort_by` is a stable sort, and the
result of a stable sort is unique, so Mathlib's stable `insertionSort` models
it) and recurse into all children. -/
def sort_namespace_tree : Node → Node
  | .mk cs rs => .mk (sortChildren cs) (List.insertionSort entryLe rs)

/-- Recursion of sort_namespace_tree over the children map. -/
def sortChildren : ChildMap → ChildMap
  | .nil => .nil
  | .cons k c rest => .cons k (sort_namespace_tree c) (sortChildren rest)
end

/-! ### Interpolation resolution (src/codegen/generator/flat.rs).

The Rust functions resolve_string_value / extract_string_from_value /
resolve_interpolation_parts recurse with a shared mutable
`HashSet<String>` of visited tokens (embedded as a threaded `List String`).
The Rust recursion needs no fuel: every nested resolve_string_value call
inserts a fresh `kind:key` token drawn from the finite resource table, so
its depth is bounded by the table size.  The embedding adds an explicit
fuel parameter, decremented at each resolve_string_value step; with fuel
exceeding the table size the model runs the Rust recursion to completion. -/

mutual
/-- resolve_string_value (src/codegen/generator/flat.rs): cycle check via the
visited set, then look up the target and extract its string value; the
visited token is removed before returning.  Returns the result together
with the final visited set. -/
def resolve_string_value (res : RMap) :
    Nat → String → String → List String → Option String × List String
  | 0, _, _, visited => (none, visited)
  | fuel + 1, resource_type, key, visited =>
    let ref_key := resource_type ++ ":" ++ key
    if ref_key ∈ visited then (none, visited)
    else
      let visited1 := ref_key :: visited
      let step :=
        match rmapGet res resource_type with
        | some target_resources =>
          match target_resources.find? (fun (p : String × ResourceValue) => p.1 = key) with
          | some nv => extract_string_from_value res fuel nv.2 visited1
          | none => (none, visited1)
        | none => (none, visited1)
      (step.1, step.2.erase ref_key)
termination_by fuel _ _ _ => (fuel, 0, 0)

/-- extract_string_from_value (src/codegen/generator/flat.rs). -/
def extract_string_from_value (res : RMap) :
    Nat → ResourceValue → List String → Option String × List String
  | fuel, value, visited =>
    match value with
    | .String text => (some text, visited)
    | .Reference resource_type key => resolve_string_value res fuel resource_type key visited
    | .InterpolatedString parts => resolve_interpolation_parts res fuel parts visited
    | .Number _ => (none, visited)
    | .Bool _ => (none, visited)
    | .Color _ => (none, visited)
    | .Url _ => (none, visited)
    | .Dimension _ => (none, visited)
    | .StringArray _ => (none, visited)
    | .IntArray _ => (none, visited)
    | .FloatArray _ => (none, visited)
    | .Template _ => (none, visited)
termination_by fuel _ _ => (fuel, 3, 0)

/-- resolve_interpolation_parts (src/codegen/generator/flat.rs): always
returns `some`; unresolved reference parts render as `@` followed by the
key. -/
def resolve_interpolation_parts (res : RMap) :
    Nat → List InterpolationPart → List String → Option String × List String
  | fuel, parts, visited =>
    let core := resolve_parts_core res fuel parts visited ""
    (some core.1, core.2)
termination_by fuel _ _ => (fuel, 2, 0)

/-- Accumulator loop of resolve_interpolation_parts over the parts list. -/
def resolve_parts_core (res : RMap) :
    Nat → List InterpolationPart → List String → String → String × List String
  | _, [], visited, acc => (acc, visited)
  | fuel, part :: rest, visited, acc =>
    match part with
    | .Text text => resolve_parts_core res fuel rest visited (acc ++ text)
    | .Reference resource_type key =>
      match resolve_string_value res fuel resource_type key visited with
      | (some resolved, visited2) => resolve_parts_core res fuel rest visited2 (acc ++ resolved)
      | (none, visited2) => resolve_parts_core res fuel rest visited2 (acc ++ "@" ++ key)
termination_by fuel parts _ _ => (fuel, 1, parts.length)
end

/-- Total number of entries in the resource table; used as the fuel bound
for interpolation resolution during emission. -/
def rmapEntryCount (res : RMap) : Nat :=
  (res.map (fun rt_items => rt_items.2.length)).sum

/-- Indentation padding, Rust `" ".repeat(indent)`. -/
def padOf (indent : Nat) : String := String.mk (List.replicate indent ' ')

/-- escape_literal (src/codegen/generator/flat.rs and
src/generator/ir/types/array.rs): escape backslashes, then double quotes. -/
def escape_literal (literal : String) : String :=
  String.join (literal.data.map (fun c =>
    if c = '\\' then "\\\\" else if c = '"' then "\\\"" else String.singleton c))

/-- rust_type (src/codegen/generator/flat.rs). -/
def rust_type (param : TemplateParameter) : String :=
  match param.param_type with
  | .String => "&str"
  | .Int => "i64"
  | .Float => "f64"
  | .Bool => "bool"

/-- Splits a character list at the first occurrence of `c` (Rust
`str::find` followed by slicing); `none` when `c` does not occur. -/
def breakAtChar (c : Char) : List Char → Option (List Char × List Char)
  | [] => none
  | x :: rest =>
    if x = c then some ([], rest)
    else
      match breakAtChar c rest with
      | some p => some (x :: p.1, p.2)
      | none => none

/-- After a successful break the suffix is strictly shorter. -/
theorem breakAtChar_length {c : Char} :
    ∀ {cs b a : List Char}, breakAtChar c cs = some (b, a) → a.length < cs.length := by
  intro cs
  induction cs with
  | nil => intro b a h; simp [breakAtChar] at h
  | cons x rest ih =>
    intro b a h
    by_cases hx : x = c
    · simp [breakAtChar, hx] at h
      simp [← h.2]
    · simp only [breakAtChar, if_neg hx] at h
      match hrec : breakAtChar c rest with
      | some p =>
        rw [hrec] at h
        simp at h
        have := ih (b := p.1) (a := p.2) (by rw [hrec])
        simp [← h.2]
        omega
      | none => rw [hrec] at h; simp at h

/-- Scanner loop of parse_template_placeholders
(src/codegen/generator/flat.rs): find the next brace, capture the token up
to the closing brace, emit a substitution slot for declared parameter names
and escaped literal text otherwise; an unterminated brace becomes literal
text and scanning resumes right after it.  Returns the format parts and the
substitution argument names. -/
def ptpGo (parameters : List TemplateParameter) (cs : List Char) :
    List String × List String :=
  match _hb : breakAtChar '{' cs with
  | none => (if cs.isEmpty then [] else [escapeDebug (String.mk cs)], [])
  | some ba =>
    let textParts := if ba.1.isEmpty then [] else [escapeDebug (String.mk ba.1)]
    match _hb2 : breakAtChar '}' ba.2 with
    | some tr =>
      let placeholder := String.mk tr.1
      match parameters.find? (fun p => p.name = placeholder) with
      | some param =>
        let rest := ptpGo parameters tr.2
        (textParts ++ ["\x7b\x7d"] ++ rest.1, sanitize_identifier param.name :: rest.2)
      | none =>
        let rest := ptpGo parameters tr.2
        (textParts ++ ["\\\x7b" ++ placeholder ++ "\\\x7d"] ++ rest.1, rest.2)
    | none =>
      let rest := ptpGo parameters ba.2
      (textParts ++ ["\\\x7b"] ++ rest.1, rest.2)
termination_by cs.length
decreasing_by
  all_goals first
    | exact Nat.lt_of_lt_of_le (breakAtChar_length _hb2) (Nat.le_of_lt (breakAtChar_length _hb))
    | exact breakAtChar_length _hb

/-- parse_template_placeholders (src/codegen/generator/flat.rs). -/
def parse_template_placeholders (template_str : String)
    (parameters : List TemplateParameter) : String × List String :=
  let r := ptpGo parameters template_str.data
  (String.join r.1, r.2)

/-- emit_template_function (src/codegen/generator/flat.rs). -/
def emit_template_function (pad fn_name : String) (template : Template) : String :=
  let params := String.intercalate ", "
    (template.parameters.map (fun param => sanitize_identifier param.name ++ ": " ++ rust_type param))
  let fa := parse_template_placeholders template.template template.parameters
  let header := pad ++ "#[must_use]\n" ++ pad ++ "pub fn " ++ fn_name ++ "(" ++ params
    ++ ") -> String \x7b\n"
  let body :=
    if fa.2.isEmpty then
      pad ++ "    \"" ++ String.mk (fa.1.data.filter (fun c => c ≠ '\\')) ++ "\".to_string()\n"
    else
      pad ++ "    format!(\"" ++ fa.1 ++ "\", " ++ String.intercalate ", " fa.2 ++ ")\n"
  header ++ body ++ pad ++ "\x7d\n"

/-- emit_string_constant (src/codegen/generator/flat.rs). -/
def emit_string_constant (pad const_name value : String) : String :=
  pad ++ "pub const " ++ const_name ++ ": &str = \"" ++ escapeDebug value ++ "\";\n"

/-- emit_reference_constant (src/codegen/generator/flat.rs). -/
def emit_reference_constant (pad const_name resource_type key : String) : String :=
  pad ++ "pub use " ++ resolve_reference_path resource_type key true ++ " as " ++ const_name ++ ";\n"

/-- emit_big_decimal_static (src/codegen/generator/flat.rs). -/
def emit_big_decimal_static (pad const_name raw : String) : String :=
  let literal := escape_literal raw
  pad ++ "pub static " ++ const_name ++ ": LazyLock<BigDecimal> = LazyLock::new(|| \x7b\n"
    ++ pad ++ "    BigDecimal::from_str(\"" ++ literal ++ "\").expect(\"valid decimal literal\")\n"
    ++ pad ++ "\x7d);\n"

/-- emit_number_value (src/codegen/generator/flat.rs); `fdisp` models the
`Display` rendering of the stored `f64`. -/
def emit_number_value (fdisp : String → String) (pad const_name : String)
    (number : NumberValue) : String :=
  match number with
  | .Int value => pad ++ "pub const " ++ const_name ++ ": i64 = " ++ toString value ++ ";\n"
  | .Float lit =>
    pad ++ "pub const " ++ const_name ++ ": f64 = " ++ format_float_str (fdisp lit) ++ ";\n"
  | .BigDecimal raw => emit_big_decimal_static pad const_name raw
  | .Typed literal ty =>
    pad ++ "pub const " ++ const_name ++ ": " ++ ty.as_str ++ " = " ++ literal ++ ";\n"

/-- emit_string_resource (src/codegen/generator/flat.rs): plain strings,
references, interpolations (resolved with a fresh visited set) and template
functions. -/
def emit_string_resource (res : RMap) (fuel : Nat) (pad const_name : String)
    (entry : ResourceEntry) : String :=
  match entry.value with
  | .String value => emit_string_constant pad const_name value
  | .Reference resource_type key => emit_reference_constant pad const_name resource_type key
  | .InterpolatedString parts =>
    let resolved := (resolve_interpolation_parts res fuel parts []).1.getD ""
    emit_string_constant pad const_name resolved
  | .Template template =>
    emit_template_function pad (toLowerAscii (sanitize_identifier entry.leaf_name)) template
  | _ => ""

/-- emit_number_resource (src/codegen/generator/flat.rs). -/
def emit_number_resource (fdisp : String → String) (pad const_name : String)
    (entry : ResourceEntry) : String :=
  match entry.value with
  | .Number value => emit_number_value fdisp pad const_name value
  | .Reference resource_type key => emit_reference_constant pad const_name resource_type key
  | _ => ""

/-- emit_bool_resource (src/codegen/generator/flat.rs). -/
def emit_bool_resource (pad const_name : String) (entry : ResourceEntry) : String :=
  match entry.value with
  | .Bool value =>
    pad ++ "pub const " ++ const_name ++ ": bool = " ++ (if value then "true" else "false") ++ ";\n"
  | .Reference resource_type key => emit_reference_constant pad const_name resource_type key
  | _ => ""

/-- emit_text_resource (src/codegen/generator/flat.rs): colors, urls and
dimensions. -/
def emit_text_resource (pad const_name : String) (entry : ResourceEntry) : String :=
  match entry.value with
  | .Color value =>
    pad ++ "pub const " ++ const_name ++ ": &str = \"" ++ escapeDebug value ++ "\";\n"
  | .Url value =>
    pad ++ "pub const " ++ const_name ++ ": &str = \"" ++ escapeDebug value ++ "\";\n"
  | .Dimension value =>
    pad ++ "pub const " ++ const_name ++ ": &str = \"" ++ escapeDebug value ++ "\";\n"
  | .Reference resource_type key => emit_reference_constant pad const_name resource_type key
  | _ => ""

/-- emit_string_array_resource (src/codegen/generator/flat.rs). -/
def emit_string_array_resource (pad const_name : String) (entry : ResourceEntry) : String :=
  match entry.value with
  | .StringArray items =>
    pad ++ "pub const " ++ const_name ++ ": &[&str] = &["
      ++ String.intercalate ", " (items.map (fun s => "\"" ++ escapeDebug s ++ "\"")) ++ "];\n"
  | _ => ""

/-- emit_int_array_resource (src/codegen/generator/flat.rs). -/
def emit_int_array_resource (pad const_name : String) (entry : ResourceEntry) : String :=
  match entry.value with
  | .IntArray items =>
    pad ++ "pub const " ++ const_name ++ ": &[i64] = &["
      ++ String.intercalate ", " (items.map toString) ++ "];\n"
  | _ => ""

/-- emit_float_array_resource (src/codegen/generator/flat.rs). -/
def emit_float_array_resource (fdisp : String → String) (pad const_name : String)
    (entry : ResourceEntry) : String :=
  match entry.value with
  | .FloatArray items =>
    pad ++ "pub const " ++ const_name ++ ": &[f64] = &["
      ++ String.intercalate ", " (items.map (fun lit => format_float_str (fdisp lit))) ++ "];\n"
  | _ => ""

/-- emit_resource (src/codegen/generator/flat.rs): dispatch on the kind
name; unknown kinds emit nothing. -/
def emit_resource (fdisp : String → String) (res : RMap) (fuel : Nat)
    (entry : ResourceEntry) (indent : Nat) : String :=
  let pad := padOf indent
  let const_name := toUpperAscii (sanitize_identifier entry.leaf_name)
  if entry.resource_type = "string" then emit_string_resource res fuel pad const_name entry
  else if entry.resource_type = "number" then emit_number_resource fdisp pad const_name entry
  else if entry.resource_type = "bool" then emit_bool_resource pad const_name entry
  else if entry.resource_type = "color" ∨ entry.resource_type = "url"
      ∨ entry.resource_type = "dimension" then emit_text_resource pad const_name entry
  else if entry.resource_type = "string_array" then emit_string_array_resource pad const_name entry
  else if entry.resource_type = "int_array" then emit_int_array_resource pad const_name entry
  else if entry.resource_type = "float_array" then
    emit_float_array_resource fdisp pad const_name entry
  else ""

/-- Resource loop of emit_namespace_tree. -/
def emitResources (fdisp : String → String) (res : RMap) (fuel : Nat)
    (rs : List ResourceEntry) (indent : Nat) : String :=
  String.join (rs.map (fun e => emit_resource fdisp res fuel e indent))

mutual
/-- emit_namespace_tree (src/codegen/generator/flat.rs): children modules
first (in sorted key order), then the node's resources. -/
def emit_namespace_tree (fdisp : String → String) (res : RMap) (fuel : Nat) :
    Node → Nat → String
  | .mk cs rs, indent =>
    emitChildren fdisp res fuel cs indent ++ emitResources fdisp res fuel rs indent

/-- Children loop of emit_namespace_tree. -/
def emitChildren (fdisp : String → String) (res : RMap) (fuel : Nat) :
    ChildMap → Nat → String
  | .nil, _ => ""
  | .cons ns_name child rest, indent =>
    padOf indent ++ "pub mod " ++ ns_name ++ " \x7b\n"
      ++ emit_namespace_tree fdisp res fuel child (indent + 4)
      ++ padOf indent ++ "\x7d\n"
      ++ emitChildren fdisp res fuel rest indent
end

/-- needs_big_decimal check of generate_r_module
(src/codegen/generator/flat.rs). -/
def needsBigDecimal (resources : RMap) : Bool :=
  match rmapGet resources "number" with
  | some items =>
    items.any (fun nv =>
      match nv.2 with
      | .Number (.BigDecimal _) => true
      | _ => false)
  | none => false

/-- generate_r_module (src/codegen/generator/flat.rs): collect entries,
build and sort the namespace tree, then emit the `r` module. -/
def generate_r_module (fdisp : String → String) (resources : RMap) : String :=
  let entries := collect_entries resources
  let tree := sort_namespace_tree (build_namespace_tree entries)
  let fuel := rmapEntryCount resources + 1
  "\npub mod r \x7b\n"
    ++ (if needsBigDecimal resources then
          "    use core::str::FromStr;\n    use std::sync::LazyLock;\n    use r_resources::BigDecimal;\n"
        else "")
    ++ emit_namespace_tree fdisp resources fuel tree 4
    ++ "\x7d\n"

/-- generate_r_struct (src/codegen/generator/mod.rs). -/
def generate_r_struct : String :=
  "\npub struct R;\n\nimpl Default for R \x7b\n    fn default() -> Self \x7b\n        Self::new()\n    \x7d\n\x7d\n\nimpl R \x7b\n    #[must_use]\n    pub const fn new() -> Self \x7b\n        Self\n    \x7d\n\x7d\n"

/-- generate_code (src/codegen/generator/mod.rs): the flat `r` module plus
the static `R` struct. -/
def generate_code (fdisp : String → String) (resources : RMap) : String :=
  generate_r_module fdisp resources ++ generate_r_struct

/-- Reference-validation gate of build_with_options (src/codegen/mod.rs,
lines 87-94 plus the subsequent code generation): with a non-empty error
list the build aborts with those errors (`std::process::exit(1)` after
printing them); otherwise the generated code is produced. -/
def build_outcome (fdisp : String → String) (resources : RMap) :
    Except (List String) String :=
  let ref_errors := validate_references resources
  if ref_errors.isEmpty then .ok (generate_code fdisp resources)
  else .error ref_errors

/-! ## Auto-typed number arrays (src/generator/ir/types/array.rs) -/

/-- count_significant_digits (src/generator/ir/types/array.rs): digits before
the exponent marker; sign, dot and everything else ignored. -/
def count_significant_digits (literal : String) : Nat :=
  (literal.data.foldl
    (fun st c =>
      if '0' ≤ c ∧ c ≤ '9' then (if st.2 then st else (st.1 + 1, st.2))
      else if c = 'e' ∨ c = 'E' then (st.1, true)
      else st)
    ((0, false) : Nat × Bool)).1

/-- BigDecimal branch of emit_auto_number_array
(src/generator/ir/types/array.rs): one `LazyLock<BigDecimal>` static per
item plus the slice of references. -/
def emit_big_decimal_array (pad const_name : String) (items : List String)
    (doc_str : String) : String :=
  let static_lines := String.join (items.enum.map (fun p =>
    let escaped := escape_literal (strTrim p.2)
    let static_name := const_name ++ "_ITEM_" ++ toString p.1
    pad ++ "static " ++ static_name
      ++ ": std::sync::LazyLock<r_resources::BigDecimal> = std::sync::LazyLock::new(|| \x7b\n"
      ++ pad ++ "    r_resources::BigDecimal::from_str(\"" ++ escaped
      ++ "\").expect(\"valid decimal literal\")\n"
      ++ pad ++ "\x7d);\n"))
  let item_refs := items.enum.map (fun p => "&" ++ const_name ++ "_ITEM_" ++ toString p.1)
  doc_str ++ static_lines
    ++ pad ++ "pub static " ++ const_name
    ++ ": &[&std::sync::LazyLock<r_resources::BigDecimal>] = &["
    ++ String.intercalate ", " item_refs ++ "];\n"

/-- Whether a literal (after trimming) carries a decimal point or exponent
marker; the condition the auto-number-array scan tests per item. -/
def hasDecimalMarker (item : String) : Bool :=
  strContains (strTrim item) '.' || strContains (strTrim item) 'e'
    || strContains (strTrim item) 'E'

/-- One step of the auto-number-array scan, named for the lemmas below; see
`autoNumberScan`. -/
def autoNumberStep (st : Bool × Bool × Bool × Nat) (item : String) :
    Bool × Bool × Bool × Nat :=
  match st with
  | (all_int, all_fit_i64, has_decimal, max_sig) =>
    let trimmed := strTrim item
    let marker := strContains trimmed '.' || strContains trimmed 'e' || strContains trimmed 'E'
    let has_decimal := has_decimal || marker
    let all_int := all_int && !marker
    let max_sig := max max_sig (count_significant_digits trimmed)
    let all_fit_i64 :=
      if all_int then (if (parseI64 trimmed).isSome then all_fit_i64 else false)
      else all_fit_i64
    (all_int, all_fit_i64, has_decimal, max_sig)

/-- Per-item scan of emit_auto_number_array
(src/generator/ir/types/array.rs): state is
(all_int, all_fit_i64, has_decimal, max_significant_digits); note that an
item that introduces a decimal marker clears all_int before the i64 fit
check of the same iteration, exactly as in the source. -/
def autoNumberScan (items : List String) : Bool × Bool × Bool × Nat :=
  items.foldl autoNumberStep (true, true, false, 0)

/-- emit_auto_number_array (src/generator/ir/types/array.rs): i64 slice when
every item is an integer fitting i64; f64 slice when a decimal marker occurs
and at most 15 significant digits are needed; BigDecimal statics otherwise.
`fdisp` models `item.trim().parse::<f64>().unwrap_or(0.0)` rendered by
`Display`. -/
def emit_auto_number_array (fdisp : String → String) (pad const_name : String)
    (items : List String) (doc_str : String) : Option String :=
  match autoNumberScan items with
  | (all_int, all_fit_i64, has_decimal, max_sig) =>
    if all_int && all_fit_i64 then
      some (doc_str ++ pad ++ "pub const " ++ const_name ++ ": &[i64] = &["
        ++ String.intercalate ", " (items.map (fun s => strTrim s)) ++ "];\n")
    else if has_decimal && decide (max_sig ≤ 15) then
      some (doc_str ++ pad ++ "pub const " ++ const_name ++ ": &[f64] = &["
        ++ String.intercalate ", " (items.map (fun item => format_float_str (fdisp (strTrim item))))
        ++ "];\n")
    else
      some (emit_big_decimal_array pad const_name items doc_str)

/-! ## Streaming reader of the `generator` pipeline
(src/generator/parsing/ast.rs and src/generator/parsing/reader/) -/

/-- ResourceKind (src/generator/parsing/ast.rs). -/
inductive ResourceKind where
  | String | Number | Bool | Color | Template | Array | Namespace | Item | Doc
deriving DecidableEq, Repr

/-- ResourceKind::from_str (src/generator/parsing/ast.rs).  Note the source
has no arm producing `Doc`; unknown tags (including `doc`) fall back to
`String`. -/
def kindOfTag (tag : String) : ResourceKind :=
  if tag = "ns" then .Namespace
  else if tag = "template" then .Template
  else if tag = "array" then .Array
  else if tag = "string" then .String
  else if tag = "number" ∨ tag = "int" ∨ tag = "float" then .Number
  else if tag = "bool" then .Bool
  else if tag = "color" then .Color
  else if tag = "item" then .Item
  else .String

/-- ScalarValue (src/generator/parsing/ast.rs).  The struct
`TemplateParam { name, value }` is embedded as the pair `(name, value)`. -/
inductive ScalarValue where
  | Text (value : String)
  | Number (value : String) (explicit_type : Option String)
  | Bool (value : Bool)
  | Color (value : String)
  | Template (text : String) (params : List (String × ScalarValue))
  | Array (element_type : String) (spec : Option String) (items : List String)

/-- ParsedResource (src/generator/parsing/ast.rs). -/
structure ParsedResource where
  name : String
  kind : ResourceKind
  value : ScalarValue
  doc : Option String

/-- ParseState (src/generator/parsing/reader/state.rs) with the Default
values of the Rust derive. -/
structure ParseState where
  current_tag : String := ""
  current_name : Option String := none
  namespace_stack : List String := []
  current_number_type : Option String := none
  template_params : List (String × ScalarValue) := []
  template_text : String := ""
  in_template : Bool := false
  in_array : Bool := false
  array_type : Option String := none
  array_spec : Option String := none
  array_items : List String := []
  pending_doc : Option String := none
  in_doc : Bool := false
  doc_text : String := ""

/-- ParseState::default(). -/
def ParseState.init : ParseState := {}

/-- Modelled from the spec: the helper `attr_value` of
src/generator/parsing/reader/utils.rs is not in the source snapshot; per the
spec's input description (attributes `name`, `type`, `spec` on declaration
tags) and the reader's tests it returns the value of the named attribute of
the start tag, here an association-list lookup over the event's attributes. -/
def attr_value (attrs : List (String × String)) (key : String) : Option String :=
  (attrs.find? (fun a => a.1 = key)).map (fun a => a.2)

/-- build_resource_name (src/generator/parsing/reader/handlers/start.rs):
the `name` attribute, prefixed by the namespace stack joined with `/` when
the stack is non-empty. -/
def build_resource_name (state : ParseState) (attrs : List (String × String)) :
    Option String :=
  match attr_value attrs "name" with
  | none => none
  | some name_attr =>
    if state.namespace_stack.isEmpty then some name_attr
    else some (String.intercalate "/" state.namespace_stack ++ "/" ++ name_attr)

/-- handle_ns (src/generator/parsing/reader/handlers/start.rs): push the
namespace name (when present) and clear the current name. -/
def handle_ns (state : ParseState) (attrs : List (String × String)) : ParseState :=
  let state :=
    match attr_value attrs "name" with
    | some ns_name => { state with namespace_stack := state.namespace_stack ++ [ns_name] }
    | none => state
  { state with current_name := none }

/-- handle_template (src/generator/parsing/reader/handlers/start.rs). -/
def handle_template (state : ParseState) : ParseState :=
  { state with in_template := true, template_params := [], template_text := "" }

/-- handle_array (src/generator/parsing/reader/handlers/start.rs). -/
def handle_array (state : ParseState) (attrs : List (String × String)) : ParseState :=
  let state :=
    { state with
        in_array := true
        array_type := attr_value attrs "type"
        array_spec := attr_value attrs "spec"
        array_items := [] }
  { state with current_name := build_resource_name state attrs }

/-- handle_template_param (src/generator/parsing/reader/handlers/start.rs):
a named string/number/bool/color sub-declaration inside a template becomes
an ordered template parameter (numbers keep their explicit type attribute);
returns the updated state and whether the tag was consumed as a parameter. -/
def handle_template_param (state : ParseState) (kind : ResourceKind)
    (param_name : Option String) (number_type : Option String) : ParseState × Bool :=
  match param_name with
  | none => (state, false)
  | some param_name_str =>
    let param_value : Option ScalarValue :=
      match kind with
      | .String => some (.Text "")
      | .Number => some (.Number "" number_type)
      | .Bool => some (.Bool false)
      | .Color => some (.Color "")
      | _ => none
    match param_value with
    | some value =>
      ({ state with
          template_params := state.template_params ++ [(param_name_str, value)]
          current_tag := "template" }, true)
    | none => (state, false)

/-- handle_doc (src/generator/parsing/reader/handlers/start.rs). -/
def handle_doc (state : ParseState) : ParseState :=
  { state with in_doc := true, doc_text := "" }

/-- handle_start (src/generator/parsing/reader/handlers/start.rs): start
(and self-closing) tag dispatch; never produces a resource. -/
def handle_start (state : ParseState) (tag : String)
    (attrs : List (String × String)) : ParseState :=
  let state := { state with current_tag := tag }
  let kind := kindOfTag tag
  match kind with
  | .Namespace => handle_ns state attrs
  | .Array => handle_array state attrs
  | .Item => state
  | .Doc => handle_doc state
  | _ =>
    let state := if kind = .Template then handle_template state else state
    let number_type := if kind = .Number then attr_value attrs "type" else none
    let param_name := build_resource_name state attrs
    if state.in_template ∧ kind ≠ .Template then
      match handle_template_param state kind param_name number_type with
      | (state2, true) => state2
      | (state2, false) =>
        { state2 with current_number_type := number_type, current_name := param_name }
    else
      { state with current_number_type := number_type, current_name := param_name }

/-- handle_doc_text (src/generator/parsing/reader/handlers/mid.rs). -/
def handle_doc_text (state : ParseState) (text : String) (kind : ResourceKind) :
    ParseState :=
  if kind = .Doc then
    let trimmed := strTrim text
    if trimmed ≠ "" then
      { state with
          doc_text :=
            if state.doc_text = "" then trimmed else state.doc_text ++ " " ++ trimmed }
    else state
  else state

/-- handle_array_item (src/generator/parsing/reader/handlers/mid.rs). -/
def handle_array_item (state : ParseState) (text : String) (kind : ResourceKind) :
    ParseState :=
  if kind = .Item then
    let trimmed := strTrim text
    if trimmed ≠ "" then { state with array_items := state.array_items ++ [trimmed] }
    else state
  else state

/-- handle_template_text (src/generator/parsing/reader/handlers/mid.rs). -/
def handle_template_text (state : ParseState) (text : String) (kind : ResourceKind) :
    ParseState :=
  if kind = .Template then
    let trimmed := strTrim text
    if trimmed ≠ "" then { state with template_text := state.template_text ++ trimmed ++ " " }
    else state
  else state

/-- handle_normal_resource (src/generator/parsing/reader/handlers/mid.rs):
text inside an ordinary declaration produces a resource (bools only when the
text parses; the pending doc is taken in every branch). -/
def handle_normal_resource (state : ParseState) (text : String)
    (kind : ResourceKind) : ParseState × Option ParsedResource :=
  match state.current_name with
  | none => (state, none)
  | some name =>
    let trimmed := strTrim text
    if trimmed = "" then (state, none)
    else
      let doc := state.pending_doc
      let state := { state with pending_doc := none }
      match kind with
      | .String => (state, some ⟨name, .String, .Text trimmed, doc⟩)
      | .Number =>
        (state, some ⟨name, .Number, .Number trimmed state.current_number_type, doc⟩)
      | .Bool =>
        (state,
          match parseBool trimmed with
          | some b => some ⟨name, .Bool, .Bool b, doc⟩
          | none => none)
      | .Color => (state, some ⟨name, .Color, .Color trimmed, doc⟩)
      | .Template =>
        ({ state with template_text := state.template_text ++ trimmed ++ " " }, none)
      | _ => (state, none)

/-- handle_mid (src/generator/parsing/reader/handlers/mid.rs): text events;
doc, array and template accumulation take precedence over ordinary
resources. -/
def handle_mid (state : ParseState) (text : String) :
    ParseState × Option ParsedResource :=
  let kind := kindOfTag state.current_tag
  if state.in_doc then (handle_doc_text state text kind, none)
  else if state.in_array then (handle_array_item state text kind, none)
  else if state.in_template then (handle_template_text state text kind, none)
  else handle_normal_resource state text kind

/-- handle_ns_end (src/generator/parsing/reader/handlers/end.rs): pop the
namespace stack. -/
def handle_ns_end (state : ParseState) : ParseState :=
  { state with namespace_stack := state.namespace_stack.dropLast }

/-- handle_doc_end (src/generator/parsing/reader/handlers/end.rs). -/
def handle_doc_end (state : ParseState) : ParseState :=
  let doc := strTrim state.doc_text
  { state with
      pending_doc := if doc = "" then none else some doc
      in_doc := false
      doc_text := "" }

/-- handle_array_end (src/generator/parsing/reader/handlers/end.rs). -/
def handle_array_end (state : ParseState) : ParseState × Option ParsedResource :=
  match state.current_name with
  | none => (state, none)
  | some name =>
    let element_type := state.array_type.getD "string"
    let spec := state.array_spec
    let items := state.array_items
    let state :=
      { state with
          in_array := false
          array_type := none
          array_spec := none
          array_items := []
          current_name := none }
    let doc := state.pending_doc
    let state := { state with pending_doc := none }
    (state, some ⟨name, .Array, .Array element_type spec items, doc⟩)

/-- handle_template_end (src/generator/parsing/reader/handlers/end.rs): the
template resource carries the trimmed accumulated text and the accumulated
parameter list; template state is reset. -/
def handle_template_end (state : ParseState) : ParseState × Option ParsedResource :=
  match state.current_name with
  | none => (state, none)
  | some name =>
    let text := strTrim state.template_text
    let params := state.template_params
    let doc := state.pending_doc
    let state :=
      { state with
          pending_doc := none
          in_template := false
          template_params := []
          template_text := ""
          current_name := none }
    (state, some ⟨name, .Template, .Template text params, doc⟩)

/-- handle_item_end (src/generator/parsing/reader/handlers/end.rs). -/
def handle_item_end (state : ParseState) : ParseState :=
  { state with current_tag := "" }

/-- handle_normal_resource_end (src/generator/parsing/reader/handlers/end.rs). -/
def handle_normal_resource_end (state : ParseState) (kind : ResourceKind) : ParseState :=
  let state :=
    if kind = .String ∨ kind = .Number ∨ kind = .Bool ∨ kind = .Color
        ∨ kind = .Template ∨ kind = .Array then
      { state with current_name := none }
    else state
  let state :=
    if kind = .Number then { state with current_number_type := none } else state
  { state with current_tag := "" }

/-- handle_template_param_end as inlined in handle_end
(src/generator/parsing/reader/handlers/end.rs): inside a template, closing
tags of the four parameter kinds only clear the current name. -/
def handle_end (state : ParseState) (tag : String) :
    ParseState × Option ParsedResource :=
  let kind := kindOfTag tag
  match kind with
  | .Namespace => (handle_ns_end state, none)
  | .Array => handle_array_end state
  | .Template => handle_template_end state
  | .Item => (handle_item_end state, none)
  | .Doc => (handle_doc_end state, none)
  | _ =>
    if state.in_template
        ∧ (kind = .String ∨ kind = .Number ∨ kind = .Bool ∨ kind = .Color) then
      ({ state with current_name := none }, none)
    else
      (handle_normal_resource_end state kind, none)

/-- An event of the streaming reader loop
(src/generator/parsing/reader/mod.rs): start tags and self-closing tags both
dispatch to handle_start, text events carry the decoded text, closing tags
dispatch to handle_end. -/
inductive XmlEvent where
  | start (tag : String) (attrs : List (String × String))
  | text (content : String)
  | close (tag : String)

/-- Event loop of parse_single_file (src/generator/parsing/reader/mod.rs):
fold the handlers over the event stream, collecting produced resources. -/
def parse_events (events : List XmlEvent) : ParseState × List ParsedResource :=
  events.foldl
    (fun st ev =>
      match ev with
      | .start tag attrs => (handle_start st.1 tag attrs, st.2)
      | .text content =>
        match handle_mid st.1 content with
        | (s, some r) => (s, st.2 ++ [r])
        | (s, none) => (s, st.2)
      | .close tag =>
        match handle_end st.1 tag with
        | (s, some r) => (s, st.2 ++ [r])
        | (s, none) => (s, st.2))
    (ParseState.init, [])

/-! ## Specification-side definitions used to state the claims -/

/-- Semantics of the Rust `format!` macro on the escape-free format strings
the template compiler produces for matched placeholders: doubled braces are
literal braces, an empty brace pair consumes the next argument, every other
character is literal.  Used to state what the generated template function
returns when invoked. -/
def renderFormat : List Char → List String → String
  | '{' :: '{' :: rest, args => "\x7b" ++ renderFormat rest args
  | '}' :: '}' :: rest, args => "\x7d" ++ renderFormat rest args
  | '{' :: '}' :: rest, args => args.headD "" ++ renderFormat rest (args.tail)
  | c :: rest, args => String.singleton c ++ renderFormat rest args
  | [], _ => ""

/-- Invocation of the generated template function: arguments are bound to
the declared parameters positionally (an `i64` argument is rendered by its
`Display` text), the emitted `format!` call substitutes them at the slots in
placeholder order. -/
def template_invoke (template : Template) (argVals : List String) : String :=
  let fa := parse_template_placeholders template.template template.parameters
  let bound := template.parameters.zip argVals
  let argOf := fun (n : String) =>
    ((bound.find? (fun pv => sanitize_identifier pv.1.name = n)).map (fun pv => pv.2)).getD ""
  renderFormat fa.1.data (fa.2.map argOf)

/-- The dangling pure references of a resource table:
(declaring kind, declaring name, target kind, target key) of every value
that is entirely a reference whose target kind table or target key is
missing. -/
def danglingRefs (resources : RMap) : List (String × String × String × String) :=
  resources.flatMap (fun rt_items =>
    rt_items.2.filterMap (fun nv =>
      match nv.2 with
      | .Reference resource_type key =>
        match rmapGet resources resource_type with
        | some target_resources =>
          if target_resources.any (fun p => p.1 = key) then none
          else some (rt_items.1, nv.1, resource_type, key)
        | none => some (rt_items.1, nv.1, resource_type, key)
      | _ => none))

/-- The error message validate_references emits for a dangling reference. -/
def danglingMessage (resources : RMap) (d : String × String × String × String) : String :=
  match rmapGet resources d.2.2.1 with
  | some _ =>
    "Unresolved reference in " ++ d.1 ++ "." ++ d.2.1 ++ ": @" ++ d.2.2.1 ++ "/" ++ d.2.2.2
      ++ " does not exist"
  | none =>
    "Invalid reference in " ++ d.1 ++ "." ++ d.2.1 ++ ": resource type '" ++ d.2.2.1
      ++ "' does not exist"

/-- Rendering of one interpolation part as the resolver emits it: literal
text stays, a reference part becomes its resolved string or the marker `@`
followed by the key when resolution fails. -/
def renderPart (res : RMap) (fuel : Nat) (visited : List String)
    (part : InterpolationPart) : String :=
  match part with
  | .Text t => t
  | .Reference resource_type key =>
    match (resolve_string_value res fuel resource_type key visited).1 with
    | some s => s
    | none => "@" ++ key

/-- Rendering of a whole interpolation sequence part by part. -/
def renderParts (res : RMap) (fuel : Nat) (visited : List String) :
    List InterpolationPart → String
  | [] => ""
  | part :: rest => renderPart res fuel visited part ++ renderParts res fuel visited rest

/-- The placeholder value handle_template_param stores for a parameter of
the given kind (numbers keep the explicit type attribute). -/
def paramValueOf (kind : ResourceKind) (number_type : Option String) : ScalarValue :=
  match kind with
  | .String => .Text ""
  | .Number => .Number "" number_type
  | .Bool => .Bool false
  | .Color => .Color ""
  | _ => .Text ""

/-! ## Infrastructure for the determinism claim (C1): orders on entries,
tree equivalence and invariants, and the lookup view of the table -/

/-- Strict version of the leaf-name order used by sort_namespace_tree. -/
def entryLt (a b : ResourceEntry) : Prop :=
  strLt a.leaf_name b.leaf_name = true

instance : DecidableRel entryLt := fun a b => by unfold entryLt; infer_instance

/-- Distinctness relation required of the collected entries for deterministic
output: entries sharing a namespace path must have distinct leaf names. -/
def entryRne (a b : ResourceEntry) : Prop :=
  a.namespace_path = b.namespace_path → a.leaf_name ≠ b.leaf_name

instance : DecidableRel entryRne := fun a b => by unfold entryRne; infer_instance

mutual
/-- Equality of namespace trees up to permutation of each node's resource
list; children maps must agree positionally (same keys, same order). -/
def nodeEquiv : Node → Node → Prop
  | .mk cs1 rs1, .mk cs2 rs2 => rs1.Perm rs2 ∧ childEquiv cs1 cs2

/-- `nodeEquiv` on the children maps. -/
def childEquiv : ChildMap → ChildMap → Prop
  | .nil, .nil => True
  | .nil, .cons _ _ _ => False
  | .cons _ _ _, .nil => False
  | .cons k1 c1 r1, .cons k2 c2 r2 => k1 = k2 ∧ nodeEquiv c1 c2 ∧ childEquiv r1 r2
end

mutual
/-- Every entry stored in the tree under prefix `pre` sits at the node named
by its namespace path. -/
def nodePathOk (pre : List String) : Node → Prop
  | .mk cs rs => (∀ e ∈ rs, e.namespace_path = pre) ∧ childPathOk pre cs

/-- `nodePathOk` on the children maps. -/
def childPathOk (pre : List String) : ChildMap → Prop
  | .nil => True
  | .cons k c rest => nodePathOk (pre ++ [k]) c ∧ childPathOk pre rest
end

mutual
/-- All entries stored in a namespace tree, children first. -/
def nodeEntries : Node → List ResourceEntry
  | .mk cs rs => childEntries cs ++ rs

/-- `nodeEntries` on the children maps. -/
def childEntries : ChildMap → List ResourceEntry
  | .nil => []
  | .cons _ c rest => nodeEntries c ++ childEntries rest
end

/-- The only view of the resource table used by the interpolation resolver:
presence of the target kind table and the first value stored under the key. -/
def lookupRV (res : RMap) (rt key : String) : Option ResourceValue :=
  match rmapGet res rt with
  | none => none
  | some items => (items.find? (fun (p : String × ResourceValue) => p.1 = key)).map Prod.snd

/-- Reordering relation on one level of the resource table: same kind keys in
the same order, each kind's entry list permuted. -/
def innerPerm (x y : String × List (String × ResourceValue)) : Prop :=
  x.1 = y.1 ∧ x.2.Perm y.2

/-! # Claim theorems -/

/-! ## Helper lemmas for the numeric classifier -/

theorem format_float_str_of_not_marker {s : String} (hd : strContains s '.' = false)
    (he : strContains s 'e' = false) (hE : strContains s 'E' = false) :
    format_float_str s = s ++ ".0" := by
  simp [format_float_str, hd, he, hE]

theorem strContains_append (s t : String) (c : Char) :
    strContains (s ++ t) c = (strContains s c || strContains t c) := by
  simp [strContains, String.data_append]

theorem format_float_str_contains_dot {s : String}
    (he : strContains s 'e' = false) (hE : strContains s 'E' = false) :
    strContains (format_float_str s) '.' = true := by
  by_cases hd : strContains s '.' = true
  · rw [format_float_str]
    rw [hd]
    simp [hd]
  · rw [format_float_str_of_not_marker (by simpa using hd) he hE]
    rw [strContains_append]
    simp [strContains]

/-- Claim C4: for an untyped numeric literal, a trimmed literal without a
decimal point or exponent marker is parsed as a 64-bit signed integer and
falls back to arbitrary-precision decimal on parse failure; a literal with
such a marker is parsed as a 64-bit float; concretely, "3" classifies as the
64-bit integer 3, "3.14" as a 64-bit float, and a 30-digit integer literal
as an arbitrary-precision decimal. -/
theorem C4_untyped_numeric_literal_classification :
    (∀ f32d f64d text n, strTrim text ≠ "" → looks_like_integer (strTrim text) = true →
        parseI64 (strTrim text) = some n →
        parse_number_value f32d f64d text none = .ok (.Int n))
    ∧ (∀ f32d f64d text, strTrim text ≠ "" → looks_like_integer (strTrim text) = true →
        parseI64 (strTrim text) = none →
        parse_number_value f32d f64d text none = parse_big_decimal (strTrim text))
    ∧ (∀ f32d f64d text, strTrim text ≠ "" → looks_like_integer (strTrim text) = false →
        floatFromStrOk (strTrim text) = true →
        parse_number_value f32d f64d text none = .ok (.Float (strTrim text)))
    ∧ parse_number_value (fun s => s) (fun s => s) "3" none = .ok (.Int 3)
    ∧ parse_number_value (fun s => s) (fun s => s) "3.14" none = .ok (.Float "3.14")
    ∧ parse_number_value (fun s => s) (fun s => s) "123456789012345678901234567890" none
        = .ok (.BigDecimal "123456789012345678901234567890") := by
  refine ⟨?_, ?_, ?_, by decide, by decide, by decide⟩
  · intro f32d f64d text n hne hint hp
    simp [parse_number_value, hne, hint, hp]
  · intro f32d f64d text hne hint hp
    simp [parse_number_value, hne, hint, hp]
  · intro f32d f64d text hne hint hf
    simp [parse_number_value, hne, hint, hf]

/-- Claim C4 witness: the integer branch applied at the literal " 42 ". -/
theorem C4_untyped_numeric_literal_classification_witness :
    parse_number_value (fun s => s) (fun s => s) " 42 " none = .ok (.Int 42) :=
  C4_untyped_numeric_literal_classification.1 (fun s => s) (fun s => s) " 42 " 42
    (by decide) (by decide) (by decide)

/-! ## Helper lemmas for the auto-number-array scan -/

theorem autoNumberStep_fst (st : Bool × Bool × Bool × Nat) (item : String) :
    (autoNumberStep st item).1 = (st.1 && !hasDecimalMarker item) := by
  obtain ⟨a, b, c, d⟩ := st
  simp [autoNumberStep, hasDecimalMarker]

theorem autoNumberStep_hasdec (st : Bool × Bool × Bool × Nat) (item : String) :
    (autoNumberStep st item).2.2.1 = (st.2.2.1 || hasDecimalMarker item) := by
  obtain ⟨a, b, c, d⟩ := st
  simp [autoNumberStep, hasDecimalMarker]

theorem autoNumberStep_max (st : Bool × Bool × Bool × Nat) (item : String) :
    (autoNumberStep st item).2.2.2 = max st.2.2.2 (count_significant_digits (strTrim item)) := by
  obtain ⟨a, b, c, d⟩ := st
  simp [autoNumberStep]

theorem autoScan_fold_fst_false :
    ∀ (items : List String) (st : Bool × Bool × Bool × Nat), st.1 = false →
      (items.foldl autoNumberStep st).1 = false := by
  intro items
  induction items with
  | nil => intro st h; simp only [List.foldl_nil]; exact h
  | cons it rest ih =>
    intro st h
    simp only [List.foldl_cons]
    exact ih _ (by rw [autoNumberStep_fst, h]; rfl)

theorem autoScan_fold_hasdec_true :
    ∀ (items : List String) (st : Bool × Bool × Bool × Nat), st.2.2.1 = true →
      (items.foldl autoNumberStep st).2.2.1 = true := by
  intro items
  induction items with
  | nil => intro st h; simp only [List.foldl_nil]; exact h
  | cons it rest ih =>
    intro st h
    simp only [List.foldl_cons]
    exact ih _ (by rw [autoNumberStep_hasdec, h]; rfl)

theorem autoScan_fold_max_le :
    ∀ (items : List String) (st : Bool × Bool × Bool × Nat),
      st.2.2.2 ≤ (items.foldl autoNumberStep st).2.2.2 := by
  intro items
  induction items with
  | nil => intro st; simp
  | cons it rest ih =>
    intro st
    simp only [List.foldl_cons]
    exact le_trans (by rw [autoNumberStep_max]; exact le_max_left _ _) (ih _)

theorem autoScan_fold_fst_false_of_mem {items : List String} {it : String}
    (hmem : it ∈ items) (hmark : hasDecimalMarker it = true) :
    ∀ st : Bool × Bool × Bool × Nat, (items.foldl autoNumberStep st).1 = false := by
  induction items with
  | nil => cases hmem
  | cons x rest ih =>
    intro st
    rcases List.mem_cons.mp hmem with rfl | hmem2
    · simp only [List.foldl_cons]
      exact autoScan_fold_fst_false rest _ (by rw [autoNumberStep_fst, hmark]; simp)
    · simp only [List.foldl_cons]
      exact ih hmem2 _

theorem autoScan_fold_hasdec_of_mem {items : List String} {it : String}
    (hmem : it ∈ items) (hmark : hasDecimalMarker it = true) :
    ∀ st : Bool × Bool × Bool × Nat, (items.foldl autoNumberStep st).2.2.1 = true := by
  induction items with
  | nil => cases hmem
  | cons x rest ih =>
    intro st
    rcases List.mem_cons.mp hmem with rfl | hmem2
    · simp only [List.foldl_cons]
      exact autoScan_fold_hasdec_true rest _ (by rw [autoNumberStep_hasdec, hmark]; simp)
    · simp only [List.foldl_cons]
      exact ih hmem2 _

theorem autoScan_fold_max_of_mem {items : List String} {it : String}
    (hmem : it ∈ items) :
    ∀ st : Bool × Bool × Bool × Nat,
      count_significant_digits (strTrim it) ≤ (items.foldl autoNumberStep st).2.2.2 := by
  induction items with
  | nil => cases hmem
  | cons x rest ih =>
    intro st
    rcases List.mem_cons.mp hmem with rfl | hmem2
    · simp only [List.foldl_cons]
      exact le_trans (by rw [autoNumberStep_max]; exact le_max_right _ _)
        (autoScan_fold_max_le rest _)
    · simp only [List.foldl_cons]
      exact ih hmem2 _

/-- Claim C5 counterexample: the scalar classifier keeps a 21-significant-
digit decimal literal as a 64-bit float; it does not fall back to the
arbitrary-precision representation the claim asserts. -/
theorem C5_counterexample :
    parse_number_value (fun s => s) (fun s => s) "3.14159265358979323846" none
      = .ok (.Float "3.14159265358979323846")
    ∧ strContains "3.14159265358979323846" '.' = true
    ∧ 15 < count_significant_digits "3.14159265358979323846" :=
  ⟨by decide, by decide, by decide⟩

/-- Claim C5 (amended): the greater-than-15-significant-digits fallback to
arbitrary precision lives in the auto-typed number-array emitter: when some
item carries a decimal point or exponent marker and some item needs more
than 15 significant digits, emit_auto_number_array emits BigDecimal statics
instead of an f64 slice; the scalar classifier keeps any literal Rust's f64
parser accepts as a 64-bit float regardless of digit count. -/
theorem C5_array_bigdecimal_fallback :
    (∀ fdisp pad cname items doc_str it, it ∈ items → hasDecimalMarker it = true →
      15 < count_significant_digits (strTrim it) →
      emit_auto_number_array fdisp pad cname items doc_str
        = some (emit_big_decimal_array pad cname items doc_str))
    ∧ (∀ f32d f64d text, strTrim text ≠ "" → looks_like_integer (strTrim text) = false →
        floatFromStrOk (strTrim text) = true →
        parse_number_value f32d f64d text none = .ok (.Float (strTrim text))) := by
  constructor
  · intro fdisp pad cname items doc_str it hmem hmark hsig
    have ha : (autoNumberScan items).1 = false := autoScan_fold_fst_false_of_mem hmem hmark _
    have hc : (autoNumberScan items).2.2.1 = true := autoScan_fold_hasdec_of_mem hmem hmark _
    have hd : 15 < (autoNumberScan items).2.2.2 :=
      lt_of_lt_of_le hsig (autoScan_fold_max_of_mem hmem _)
    rcases hscan : autoNumberScan items with ⟨a, b, c, d⟩
    rw [hscan] at ha hc hd
    simp only at ha hc hd
    have hd15 : decide (d ≤ 15) = false := decide_eq_false (Nat.not_le.mpr hd)
    unfold emit_auto_number_array
    rw [hscan]
    simp [ha, hc, hd15]
  · intro f32d f64d text hne hint hf
    simp [parse_number_value, hne, hint, hf]

/-- Claim C5 (amended) witness: a single 17-significant-digit decimal item
forces the BigDecimal form. -/
theorem C5_array_bigdecimal_fallback_witness :
    emit_auto_number_array (fun s => s) "    " "NUMS" ["1.2345678901234567"] ""
      = some (emit_big_decimal_array "    " "NUMS" ["1.2345678901234567"] "") :=
  C5_array_bigdecimal_fallback.1 (fun s => s) "    " "NUMS" ["1.2345678901234567"] ""
    "1.2345678901234567" (by decide) (by decide) (by decide)

/-- Claim C6: an explicitly f32- or f64-typed literal that parses
successfully is stored as a formatted literal that always carries a decimal
point (a rendering without one gets a trailing ".0"); Rust's float Display
never produces an exponent marker, which the exponent-freeness hypotheses on
the rendered string record; concretely the bare integer literal "3" typed
f64 is stored as "3.0". -/
theorem C6_explicit_float_has_decimal_point :
    (∀ f32d f64d literal, floatFromStrOk (strTrim literal) = true →
        parse_explicit_number f32d f64d literal "f64"
          = .ok (.Typed (format_float_str (f64d (strTrim literal))) .F64))
    ∧ (∀ f32d f64d literal, floatFromStrOk (strTrim literal) = true →
        parse_explicit_number f32d f64d literal "f32"
          = .ok (.Typed (format_float_str (f32d (strTrim literal))) .F32))
    ∧ (∀ s, strContains s 'e' = false → strContains s 'E' = false →
        strContains (format_float_str s) '.' = true)
    ∧ (∀ s, strContains s '.' = false → strContains s 'e' = false →
        strContains s 'E' = false → format_float_str s = s ++ ".0")
    ∧ parse_explicit_number (fun s => s) (fun s => s) "3" "f64" = .ok (.Typed "3.0" .F64)
    ∧ parse_explicit_number (fun s => s) (fun s => s) "3" "f32" = .ok (.Typed "3.0" .F32) := by
  refine ⟨?_, ?_, fun s he hE => format_float_str_contains_dot he hE,
    fun s hd he hE => format_float_str_of_not_marker hd he hE, by decide, by decide⟩
  · intro f32d f64d literal hok
    have hty : toLowerAscii (strTrim "f64") = "f64" := by decide
    simp [parse_explicit_number, hok, hty]
  · intro f32d f64d literal hok
    have hty : toLowerAscii (strTrim "f32") = "f32" := by decide
    simp [parse_explicit_number, hok, hty]

/-- Claim C6 witness: the f64 branch applied at literal "7". -/
theorem C6_explicit_float_has_decimal_point_witness :
    parse_explicit_number (fun s => s) (fun s => s) "7" "f64" = .ok (.Typed "7.0" .F64) := by
  have h := C6_explicit_float_has_decimal_point.1 (fun s => s) (fun s => s) "7" (by decide)
  simpa using h

/-! ## Helper lemmas for reference validation -/

theorem validate_eq_map_dangling (resources : RMap) :
    validate_references resources = (danglingRefs resources).map (danglingMessage resources) := by
  unfold validate_references danglingRefs
  rw [List.map_flatMap]
  congr 1
  funext rt_items
  rw [List.map_filterMap]
  congr 1
  funext nv
  obtain ⟨name, v⟩ := nv
  cases v with
  | Reference trt tkey =>
    simp only []
    cases hres : rmapGet resources trt with
    | some titems =>
      by_cases hk : titems.any (fun p => p.1 = tkey) = true
      · simp [hk]
      · simp only [Bool.not_eq_true] at hk
        simp [hk, danglingMessage, hres]
    | none => simp [danglingMessage, hres]
  | String v => rfl
  | Number v => rfl
  | Bool v => rfl
  | Color v => rfl
  | Url v => rfl
  | Dimension v => rfl
  | StringArray v => rfl
  | IntArray v => rfl
  | FloatArray v => rfl
  | InterpolatedString v => rfl
  | Template v => rfl

/-- Claim C2: every resource whose value is entirely a pure reference with a
missing target kind table or missing target key makes validation fail; the
validator collects exactly one error per dangling pure reference across all
resources (the error list is the dangling list mapped through the message
that names the declaring kind and name and the missing target), validation
returns the empty list exactly when every pure reference resolves, and the
build aborts with the collected errors exactly when the list is non-empty,
proceeding to code generation otherwise. -/
theorem C2_dangling_pure_reference_errors :
    ∀ (fdisp : String → String) (resources : RMap),
      validate_references resources = (danglingRefs resources).map (danglingMessage resources)
      ∧ (validate_references resources).length = (danglingRefs resources).length
      ∧ (validate_references resources = [] ↔
          (∀ rt items, (rt, items) ∈ resources →
            ∀ name trt tkey, (name, ResourceValue.Reference trt tkey) ∈ items →
              ∃ titems, rmapGet resources trt = some titems
                ∧ titems.any (fun p => p.1 = tkey) = true))
      ∧ (validate_references resources ≠ [] →
          build_outcome fdisp resources = .error (validate_references resources))
      ∧ (validate_references resources = [] →
          build_outcome fdisp resources = .ok (generate_code fdisp resources)) := by
  intro fdisp resources
  refine ⟨validate_eq_map_dangling resources, ?_, ?_, ?_, ?_⟩
  · rw [validate_eq_map_dangling resources, List.length_map]
  · unfold validate_references
    rw [List.flatMap_eq_nil_iff]
    constructor
    · intro h rt items hmem name trt tkey hnv
      have h2 := h (rt, items) hmem
      rw [List.filterMap_eq_nil_iff] at h2
      have h3 := h2 (name, ResourceValue.Reference trt tkey) hnv
      simp only [] at h3
      cases hres : rmapGet resources trt with
      | some titems =>
        refine ⟨titems, rfl, ?_⟩
        rw [hres] at h3
        by_cases hk : titems.any (fun p => p.1 = tkey) = true
        · exact hk
        · simp only [Bool.not_eq_true] at hk
          simp [hk] at h3
      | none => rw [hres] at h3; simp at h3
    · intro h rt_items hmem
      rw [List.filterMap_eq_nil_iff]
      intro nv hnv
      obtain ⟨name, v⟩ := nv
      cases v with
      | Reference trt tkey =>
        obtain ⟨titems, hres, hk⟩ := h rt_items.1 rt_items.2 hmem name trt tkey hnv
        simp [hres, hk]
      | String v => rfl
      | Number v => rfl
      | Bool v => rfl
      | Color v => rfl
      | Url v => rfl
      | Dimension v => rfl
      | StringArray v => rfl
      | IntArray v => rfl
      | FloatArray v => rfl
      | InterpolatedString v => rfl
      | Template v => rfl
  · intro hne
    unfold build_outcome
    simp [List.isEmpty_iff, hne]
  · intro heq
    unfold build_outcome
    simp [List.isEmpty_iff, heq]

/-- Claim C2 witness: a table with one dangling-kind reference and one
dangling-key reference collects both errors and aborts the build with them. -/
theorem C2_dangling_pure_reference_errors_witness :
    build_outcome (fun s => s)
      [("string", [("a", .Reference "color" "x"), ("b", .String "ok"),
                   ("c", .Reference "string" "zz")])]
      = .error
          ["Invalid reference in string.a: resource type 'color' does not exist",
           "Unresolved reference in string.c: @string/zz does not exist"] := by
  have h := C2_dangling_pure_reference_errors (fun s => s)
    [("string", [("a", .Reference "color" "x"), ("b", .String "ok"),
                 ("c", .Reference "string" "zz")])]
  have hne := h.2.2.2.1 (by decide)
  rw [hne]
  congr 1

/-! ## Helper lemmas for interpolation resolution -/

theorem resolve_parts_core_frame (fuel : Nat)
    (hsv : ∀ res resource_type key visited,
      (resolve_string_value res fuel resource_type key visited).2 = visited) :
    ∀ (parts : List InterpolationPart) (res : RMap) (visited : List String) (acc : String),
      (resolve_parts_core res fuel parts visited acc).2 = visited := by
  intro parts
  induction parts with
  | nil => intro res visited acc; rw [resolve_parts_core]
  | cons part rest ih =>
    intro res visited acc
    cases part with
    | Text t =>
      rw [resolve_parts_core]
      exact ih res visited (acc ++ t)
    | Reference resource_type key =>
      rw [resolve_parts_core]
      have hfr := hsv res resource_type key visited
      cases hr : resolve_string_value res fuel resource_type key visited with
      | mk r v2 =>
        rw [hr] at hfr
        simp only [] at hfr
        rw [hfr]
        cases r with
        | some resolved => exact ih res visited (acc ++ resolved)
        | none => exact ih res visited (acc ++ "@" ++ key)

theorem extract_string_from_value_frame (fuel : Nat)
    (hsv : ∀ res resource_type key visited,
      (resolve_string_value res fuel resource_type key visited).2 = visited) :
    ∀ (res : RMap) (value : ResourceValue) (visited : List String),
      (extract_string_from_value res fuel value visited).2 = visited := by
  intro res value visited
  cases value with
  | String t => rw [extract_string_from_value]
  | Reference resource_type key => rw [extract_string_from_value]; exact hsv res resource_type key visited
  | InterpolatedString parts =>
    rw [extract_string_from_value, resolve_interpolation_parts]
    exact resolve_parts_core_frame fuel hsv parts res visited ""
  | Number v => rw [extract_string_from_value]
  | Bool v => rw [extract_string_from_value]
  | Color v => rw [extract_string_from_value]
  | Url v => rw [extract_string_from_value]
  | Dimension v => rw [extract_string_from_value]
  | StringArray v => rw [extract_string_from_value]
  | IntArray v => rw [extract_string_from_value]
  | FloatArray v => rw [extract_string_from_value]
  | Template v => rw [extract_string_from_value]

theorem resolve_string_value_frame :
    ∀ (fuel : Nat) (res : RMap) (resource_type key : String) (visited : List String),
      (resolve_string_value res fuel resource_type key visited).2 = visited := by
  intro fuel
  induction fuel with
  | zero => intro res resource_type key visited; rw [resolve_string_value]
  | succ fuel ih =>
    intro res resource_type key visited
    rw [resolve_string_value]
    by_cases hc : (resource_type ++ ":" ++ key) ∈ visited
    · simp only [if_pos hc]
    · simp only [if_neg hc]
      cases hres : rmapGet res resource_type with
      | none =>
        simp only [hres]
        exact List.erase_cons_head _ _
      | some target_resources =>
        simp only [hres]
        cases hfind : target_resources.find? (fun p => p.1 = key) with
        | none =>
          simp only [hfind]
          exact List.erase_cons_head _ _
        | some nv =>
          simp only [hfind]
          rw [extract_string_from_value_frame fuel ih res nv.2
            ((resource_type ++ ":" ++ key) :: visited)]
          exact List.erase_cons_head _ _

theorem resolve_parts_core_renders (fuel : Nat) :
    ∀ (parts : List InterpolationPart) (res : RMap) (visited : List String) (acc : String),
      resolve_parts_core res fuel parts visited acc
        = (acc ++ renderParts res fuel visited parts, visited) := by
  intro parts
  induction parts with
  | nil =>
    intro res visited acc
    rw [resolve_parts_core]
    simp [renderParts]
  | cons part rest ih =>
    intro res visited acc
    cases part with
    | Text t =>
      rw [resolve_parts_core]
      rw [ih res visited (acc ++ t)]
      rw [renderParts]
      simp [renderPart, String.append_assoc]
    | Reference resource_type key =>
      rw [resolve_parts_core]
      have hfr := resolve_string_value_frame fuel res resource_type key visited
      cases hr : resolve_string_value res fuel resource_type key visited with
      | mk r v2 =>
        rw [hr] at hfr
        simp only [] at hfr
        rw [hfr]
        cases r with
        | some resolved =>
          have hrp : renderPart res fuel visited (.Reference resource_type key) = resolved := by
            simp only [renderPart]
            rw [hr]
          show resolve_parts_core res fuel rest visited (acc ++ resolved)
            = (acc ++ renderParts res fuel visited (.Reference resource_type key :: rest), visited)
          rw [ih res visited (acc ++ resolved)]
          rw [renderParts]
          rw [hrp]
          simp [String.append_assoc]
        | none =>
          have hrp : renderPart res fuel visited (.Reference resource_type key) = "@" ++ key := by
            simp only [renderPart]
            rw [hr]
          show resolve_parts_core res fuel rest visited (acc ++ "@" ++ key)
            = (acc ++ renderParts res fuel visited (.Reference resource_type key :: rest), visited)
          rw [ih res visited (acc ++ "@" ++ key)]
          rw [renderParts]
          rw [hrp]
          simp [String.append_assoc]

/-- Claim C10: the recursive string-value resolver restores the visited set
on every path: the token inserted on entry is removed before returning, so
the set after a call equals the set at entry; consequently sequential parts
of one interpolation (in particular two sibling references to the same
target) are each resolved against the same visited set, and a second
sibling occurrence is not misreported as a cycle. -/
theorem C10_resolver_visited_set_restored :
    (∀ (fuel : Nat) (res : RMap) (resource_type key : String) (visited : List String),
        (resolve_string_value res fuel resource_type key visited).2 = visited)
    ∧ (∀ (fuel : Nat) (res : RMap) (part : InterpolationPart)
        (rest : List InterpolationPart) (visited : List String) (acc : String),
        resolve_parts_core res fuel (part :: rest) visited acc
          = resolve_parts_core res fuel rest visited
              (acc ++ renderPart res fuel visited part)) := by
  constructor
  · exact resolve_string_value_frame
  · intro fuel res part rest visited acc
    rw [resolve_parts_core_renders fuel (part :: rest) res visited acc,
        resolve_parts_core_renders fuel rest res visited
          (acc ++ renderPart res fuel visited part)]
    rw [renderParts]
    simp [String.append_assoc]

/-- Claim C3 counterexample: in the two-resource cycle where string `a` is
"x" followed by an embedded reference to `b` and string `b` embeds a
reference back to `a`, compilation resolves `a` to "xx@b": the cyclic
reference part is rendered as `@` followed by the key only ("@b"), not as
the full `@kind/key` marker text "@string/b" the claim asserts. -/
theorem C3_counterexample :
    (resolve_interpolation_parts
        [("string",
          [("a", .InterpolatedString [.Text "x", .Reference "string" "b"]),
           ("b", .InterpolatedString [.Reference "string" "a"])])]
        10 [.Text "x", .Reference "string" "b"] []).1
      = some "xx@b"
    ∧ List.IsInfix "@b".data "xx@b".data
    ∧ ¬ List.IsInfix "@string/b".data "xx@b".data := by
  refine ⟨?_, by decide, by decide⟩
  simp [resolve_interpolation_parts, resolve_parts_core, resolve_string_value,
    extract_string_from_value, rmapGet]

/-- Claim C3 (amended): embedded-reference resolution never aborts: the
interpolation resolver always returns a resolved string (each part rendered
independently, by the first conjunct), and a reference part that cannot be
resolved — the cycle case, re-entering a token already in the visited set,
and the case of a key absent from an existing target kind table (and
likewise an absent kind table) — contributes the literal text `@` followed
by the target key (without the kind prefix) to the emitted constant; only
the pure-reference path is a hard error (claim C2). -/
theorem C3_unresolved_embedded_renders_key_marker :
    (∀ (res : RMap) (fuel : Nat) (parts : List InterpolationPart) (visited : List String),
        resolve_interpolation_parts res fuel parts visited
          = (some (renderParts res fuel visited parts), visited))
    ∧ (∀ (res : RMap) (fuel : Nat) (resource_type key : String) (visited : List String),
        (resource_type ++ ":" ++ key) ∈ visited →
        (resolve_string_value res (fuel + 1) resource_type key visited).1 = none)
    ∧ (∀ (res : RMap) (fuel : Nat) (resource_type key : String) (visited : List String)
        (titems : List (String × ResourceValue)),
        rmapGet res resource_type = some titems →
        titems.find? (fun p => p.1 = key) = none →
        (resolve_string_value res (fuel + 1) resource_type key visited).1 = none)
    ∧ (∀ (res : RMap) (fuel : Nat) (resource_type key : String) (visited : List String),
        rmapGet res resource_type = none →
        (resolve_string_value res (fuel + 1) resource_type key visited).1 = none)
    ∧ (∀ (res : RMap) (fuel : Nat) (resource_type key : String) (visited : List String)
        (rest : List InterpolationPart) (acc : String),
        (resolve_string_value res fuel resource_type key visited).1 = none →
        resolve_parts_core res fuel (.Reference resource_type key :: rest) visited acc
          = resolve_parts_core res fuel rest visited (acc ++ "@" ++ key)) := by
  refine ⟨?_, ?_, ?_, ?_, ?_⟩
  · intro res fuel parts visited
    rw [resolve_interpolation_parts]
    rw [resolve_parts_core_renders fuel parts res visited ""]
    simp
  · intro res fuel resource_type key visited hc
    rw [resolve_string_value]
    simp [hc]
  · intro res fuel resource_type key visited titems hres hfind
    rw [resolve_string_value]
    by_cases hc : (resource_type ++ ":" ++ key) ∈ visited
    · simp [hc]
    · simp [hc, hres, hfind]
  · intro res fuel resource_type key visited hres
    rw [resolve_string_value]
    by_cases hc : (resource_type ++ ":" ++ key) ∈ visited
    · simp [hc]
    · simp [hc, hres]
  · intro res fuel resource_type key visited rest acc hnone
    rw [resolve_parts_core]
    have hfr := resolve_string_value_frame fuel res resource_type key visited
    cases hr : resolve_string_value res fuel resource_type key visited with
    | mk r v2 =>
      rw [hr] at hfr hnone
      simp only [] at hfr hnone
      rw [hfr]
      rw [hnone]

/-- Claim C3 (amended) witness: the cycle branch applied at a concrete
re-entered token. -/
theorem C3_unresolved_embedded_renders_key_marker_witness :
    (resolve_string_value [] 1 "string" "b" ["string:b"]).1 = none :=
  C3_unresolved_embedded_renders_key_marker.2.1 [] 0 "string" "b" ["string:b"] (by decide)

/-! ## Helper lemmas for the template placeholder scanner -/

theorem breakAtChar_of_not_mem {c : Char} :
    ∀ {cs : List Char}, c ∉ cs → breakAtChar c cs = none := by
  intro cs
  induction cs with
  | nil => intro h; rfl
  | cons x rest ih =>
    intro h
    have hx : x ≠ c := fun hxc => h (hxc ▸ List.mem_cons_self x rest)
    have hr : c ∉ rest := fun hc => h (List.mem_cons_of_mem x hc)
    rw [breakAtChar, if_neg hx, ih hr]

theorem breakAtChar_append {c : Char} :
    ∀ {before : List Char} (after : List Char), c ∉ before →
      breakAtChar c (before ++ c :: after) = some (before, after) := by
  intro before
  induction before with
  | nil => intro after h; simp [breakAtChar]
  | cons x rest ih =>
    intro after h
    have hx : x ≠ c := fun hxc => h (hxc ▸ List.mem_cons_self x rest)
    have hr : c ∉ rest := fun hc => h (List.mem_cons_of_mem x hc)
    simp only [List.cons_append]
    rw [breakAtChar, if_neg hx, ih after hr]

/-- Claim C9: the template compiler scans left-to-right for an opening
brace and captures the token up to the next closing brace; a token equal to
a declared parameter name becomes a substitution slot with that parameter
recorded (in placeholder order), a non-matching token is re-emitted as
escaped literal brace text, an unterminated opening brace is literal text,
text without braces is passed through escaped; and the generated function
for "Hello {name}, you have {count} messages!" with parameters
(name: string, count: int), invoked with "Alice" and 5, returns exactly
"Hello Alice, you have 5 messages!". -/
theorem C9_template_placeholder_compilation :
    (∀ (params : List TemplateParameter) (cs : List Char), '{' ∉ cs →
        ptpGo params cs = (if cs.isEmpty then [] else [escapeDebug (String.mk cs)], []))
    ∧ (∀ (params : List TemplateParameter) (before tok rest : List Char)
        (param : TemplateParameter), '{' ∉ before → '}' ∉ tok →
        params.find? (fun p => p.name = String.mk tok) = some param →
        ptpGo params (before ++ '{' :: (tok ++ '}' :: rest))
          = ((if before.isEmpty then [] else [escapeDebug (String.mk before)])
                ++ ["\x7b\x7d"] ++ (ptpGo params rest).1,
              sanitize_identifier param.name :: (ptpGo params rest).2))
    ∧ (∀ (params : List TemplateParameter) (before tok rest : List Char),
        '{' ∉ before → '}' ∉ tok →
        params.find? (fun p => p.name = String.mk tok) = none →
        ptpGo params (before ++ '{' :: (tok ++ '}' :: rest))
          = ((if before.isEmpty then [] else [escapeDebug (String.mk before)])
                ++ ["\\\x7b" ++ String.mk tok ++ "\\\x7d"] ++ (ptpGo params rest).1,
              (ptpGo params rest).2))
    ∧ (∀ (params : List TemplateParameter) (before after : List Char),
        '{' ∉ before → '}' ∉ after →
        ptpGo params (before ++ '{' :: after)
          = ((if before.isEmpty then [] else [escapeDebug (String.mk before)])
                ++ ["\\\x7b"] ++ (ptpGo params after).1,
              (ptpGo params after).2))
    ∧ template_invoke
        ⟨"Hello {name}, you have {count} messages!",
         [⟨"name", .String⟩, ⟨"count", .Int⟩]⟩ ["Alice", "5"]
        = "Hello Alice, you have 5 messages!" := by
  refine ⟨?_, ?_, ?_, ?_, ?_⟩
  · intro params cs h
    rw [ptpGo, breakAtChar_of_not_mem h]
  · intro params before tok rest param hb ht hfind
    rw [ptpGo, breakAtChar_append _ hb]
    simp only []
    rw [breakAtChar_append _ ht]
    simp only []
    rw [hfind]
  · intro params before tok rest hb ht hfind
    rw [ptpGo, breakAtChar_append _ hb]
    simp only []
    rw [breakAtChar_append _ ht]
    simp only []
    rw [hfind]
  · intro params before after hb ha
    rw [ptpGo, breakAtChar_append _ hb]
    simp only []
    rw [breakAtChar_of_not_mem ha]
  · simp [template_invoke, parse_template_placeholders, ptpGo, breakAtChar,
      renderFormat, sanitize_identifier, escapeDebug, escapeDebugChar]
    decide

/-- Claim C9 witness: the matched-placeholder branch applied at a concrete
template prefix. -/
theorem C9_template_placeholder_compilation_witness :
    ptpGo [⟨"name", .String⟩] ("Hi ".data ++ '{' :: ("name".data ++ '}' :: []))
      = (["Hi ", "\x7b\x7d"], ["name"]) := by
  have h := C9_template_placeholder_compilation.2.1 [⟨"name", .String⟩]
    "Hi ".data "name".data [] ⟨"name", .String⟩ (by decide) (by decide) (by decide)
  rw [h]
  have h0 := C9_template_placeholder_compilation.1 [⟨"name", .String⟩] [] (by decide)
  rw [h0]
  decide

/-! ## Helper lemmas for the streaming reader -/

theorem handle_mid_name {st : ParseState} {text : String} {s2 : ParseState}
    {r : ParsedResource} (h : handle_mid st text = (s2, some r)) :
    st.current_name = some r.name := by
  unfold handle_mid at h
  split at h
  · simp at h
  · split at h
    · simp at h
    · split at h
      · simp at h
      · unfold handle_normal_resource at h
        split at h
        · simp at h
        · rename_i name hname
          dsimp only at h
          split at h
          · simp at h
          · split at h
            · rw [Prod.mk.injEq] at h
              obtain ⟨-, h2⟩ := h
              cases h2
              exact hname
            · rw [Prod.mk.injEq] at h
              obtain ⟨-, h2⟩ := h
              cases h2
              exact hname
            · rw [Prod.mk.injEq] at h
              obtain ⟨-, h2⟩ := h
              cases hb : parseBool (strTrim text) with
              | some b => rw [hb] at h2; cases h2; exact hname
              | none => rw [hb] at h2; cases h2
            · rw [Prod.mk.injEq] at h
              obtain ⟨-, h2⟩ := h
              cases h2
              exact hname
            · simp at h
            · simp at h

theorem handle_end_name {st : ParseState} {tag : String} {s2 : ParseState}
    {r : ParsedResource} (h : handle_end st tag = (s2, some r)) :
    st.current_name = some r.name := by
  unfold handle_end at h
  dsimp only at h
  split at h
  · simp at h
  · unfold handle_array_end at h
    dsimp only at h
    split at h
    · simp at h
    · rename_i name hname
      rw [Prod.mk.injEq] at h
      obtain ⟨-, h2⟩ := h
      cases h2
      exact hname
  · unfold handle_template_end at h
    dsimp only at h
    split at h
    · simp at h
    · rename_i name hname
      rw [Prod.mk.injEq] at h
      obtain ⟨-, h2⟩ := h
      cases h2
      exact hname
  · simp at h
  · simp at h
  · split at h
    · simp at h
    · simp at h

/-- Claim C7: a namespace-grouping tag produces no resource itself: its name
attribute is pushed on the namespace stack at the opening tag and the stack
is popped at the closing tag (which also yields no resource); a resource
name built while the stack is non-empty is the stack joined with "/"
followed by "/" and the tag's own name attribute, and with an empty stack is
the name attribute unchanged; every resource produced by a text or closing
event carries the parser's current name, which the start handler sets from
build_resource_name; concretely auth-namespaced "title" parses as the single
resource "auth/title". -/
theorem C7_namespace_stack_naming :
    (∀ (st : ParseState) (attrs : List (String × String)) (nm : String),
        attr_value attrs "name" = some nm →
        (handle_start st "ns" attrs).namespace_stack = st.namespace_stack ++ [nm]
        ∧ (handle_start st "ns" attrs).current_name = none)
    ∧ (∀ st : ParseState, handle_end st "ns" = (handle_ns_end st, none))
    ∧ (∀ st : ParseState, (handle_ns_end st).namespace_stack = st.namespace_stack.dropLast)
    ∧ (∀ (st : ParseState) (attrs : List (String × String)) (nm : String),
        attr_value attrs "name" = some nm → st.namespace_stack ≠ [] →
        build_resource_name st attrs
          = some (String.intercalate "/" st.namespace_stack ++ "/" ++ nm))
    ∧ (∀ (st : ParseState) (attrs : List (String × String)) (nm : String),
        attr_value attrs "name" = some nm → st.namespace_stack = [] →
        build_resource_name st attrs = some nm)
    ∧ (∀ (st : ParseState) (tag : String) (attrs : List (String × String)),
        st.in_template = false →
        (kindOfTag tag = .String ∨ kindOfTag tag = .Number ∨ kindOfTag tag = .Bool
          ∨ kindOfTag tag = .Color ∨ kindOfTag tag = .Template ∨ kindOfTag tag = .Array) →
        (handle_start st tag attrs).current_name = build_resource_name st attrs)
    ∧ (∀ (st : ParseState) (text : String) (s2 : ParseState) (r : ParsedResource),
        handle_mid st text = (s2, some r) → st.current_name = some r.name)
    ∧ (∀ (st : ParseState) (tag : String) (s2 : ParseState) (r : ParsedResource),
        handle_end st tag = (s2, some r) → st.current_name = some r.name)
    ∧ (parse_events
        [.start "resources" [], .start "ns" [("name", "auth")],
         .start "string" [("name", "title")], .text "Login", .close "string",
         .close "ns", .close "resources"]).2
        = [⟨"auth/title", .String, .Text "Login", none⟩] := by
  refine ⟨?_, ?_, ?_, ?_, ?_, ?_, fun st text s2 r h => handle_mid_name h,
    fun st tag s2 r h => handle_end_name h, by rfl⟩
  · intro st attrs nm hattr
    constructor
    · simp [handle_start, kindOfTag, handle_ns, hattr]
    · simp [handle_start, kindOfTag, handle_ns, hattr]
  · intro st
    rfl
  · intro st
    rfl
  · intro st attrs nm hattr hne
    simp [build_resource_name, hattr, hne]
  · intro st attrs nm hattr hnil
    simp [build_resource_name, hattr, hnil]
  · intro st tag attrs hintpl hk
    rcases hk with h | h | h | h | h | h
    all_goals simp [handle_start, h, hintpl, handle_array, handle_template, build_resource_name]

/-- Claim C7 witness: namespace push applied at the default state with a
concrete name attribute. -/
theorem C7_namespace_stack_naming_witness :
    (handle_start ParseState.init "ns" [("name", "auth")]).namespace_stack = ["auth"] := by
  have h := (C7_namespace_stack_naming.1 ParseState.init [("name", "auth")] "auth" (by rfl)).1
  rw [h]
  rfl

/-- Claim C8: a named string/number/bool/color sub-declaration seen while
the parser is inside a template produces no standalone resource: the start
handler only appends it to the template parameter list in encounter order
(numbers keeping their explicit type attribute) and re-targets the current
tag at the template; text events inside a template never produce a
resource; the parameter closing tag only clears the current name; and the
template resource produced at the closing template tag carries exactly the
accumulated parameter list. -/
theorem C8_template_parameters :
    (∀ (st : ParseState) (tag : String) (attrs : List (String × String)) (nm : String),
        st.in_template = true →
        (kindOfTag tag = .String ∨ kindOfTag tag = .Number ∨ kindOfTag tag = .Bool
          ∨ kindOfTag tag = .Color) →
        build_resource_name st attrs = some nm →
        handle_start st tag attrs
          = { st with
                current_tag := "template"
                template_params := st.template_params
                  ++ [(nm, paramValueOf (kindOfTag tag)
                        (if kindOfTag tag = .Number then attr_value attrs "type" else none))] })
    ∧ (∀ (st : ParseState) (text : String),
        st.in_template = true → (handle_mid st text).2 = none)
    ∧ (∀ (st : ParseState) (tag : String),
        st.in_template = true →
        (kindOfTag tag = .String ∨ kindOfTag tag = .Number ∨ kindOfTag tag = .Bool
          ∨ kindOfTag tag = .Color) →
        handle_end st tag = ({ st with current_name := none }, none))
    ∧ (∀ (st : ParseState) (nm : String),
        st.current_name = some nm →
        handle_template_end st
          = ({ st with
                pending_doc := none
                in_template := false
                template_params := []
                template_text := ""
                current_name := none },
             some ⟨nm, .Template, .Template (strTrim st.template_text) st.template_params,
               st.pending_doc⟩))
    ∧ (parse_events
        [.start "resources" [],
         .start "template" [("name", "welcome")],
         .start "string" [("name", "name")],
         .start "number" [("name", "count"), ("type", "i32")],
         .text "Hello {name}, you have {count} messages!",
         .close "template", .close "resources"]).2
        = [⟨"welcome", .Template,
            .Template "Hello {name}, you have {count} messages!"
              [("name", .Text ""), ("count", .Number "" (some "i32"))], none⟩] := by
  refine ⟨?_, ?_, ?_, ?_, by rfl⟩
  · intro st tag attrs nm hintpl hk hbuild
    have hb2 : build_resource_name { st with current_tag := tag, in_template := true } attrs
        = some nm := by
      unfold build_resource_name at hbuild ⊢
      exact hbuild
    rcases hk with h | h | h | h
    all_goals
      simp [handle_start, h, hintpl, handle_template_param, hb2, paramValueOf]
  · intro st text hintpl
    unfold handle_mid
    by_cases h1 : st.in_doc = true
    · simp [h1]
    · by_cases h2 : st.in_array = true
      · simp [h1, h2]
      · simp [h1, h2, hintpl]
  · intro st tag hintpl hk
    rcases hk with h | h | h | h
    all_goals simp [handle_end, h, hintpl]
  · intro st nm hname
    unfold handle_template_end
    rw [hname]

/-- Claim C8 witness: a number parameter with an explicit i32 type appended
at a concrete in-template state. -/
theorem C8_template_parameters_witness :
    handle_start { ParseState.init with in_template := true } "number"
        [("name", "count"), ("type", "i32")]
      = { ParseState.init with
            in_template := true
            current_tag := "template"
            template_params := [("count", .Number "" (some "i32"))] } := by
  have h := C8_template_parameters.1 { ParseState.init with in_template := true }
    "number" [("name", "count"), ("type", "i32")] "count" (by rfl) (by right; left; rfl) (by rfl)
  rw [h]
  rfl

/-! ## Determinism across hash-map iteration orders (claim C1) -/

/-! ## C1: order lemmas for the byte-lexicographic string order -/

theorem charsLt_irrefl : ∀ cs : List Char, charsLt cs cs = false := by
  intro cs
  induction cs with
  | nil => rfl
  | cons a as ih => simp [charsLt, ih]

theorem charsLt_asymm : ∀ {as bs : List Char},
    charsLt as bs = true → charsLt bs as = true → False := by
  intro as
  induction as with
  | nil => intro bs h1 h2; cases bs <;> simp [charsLt] at h1 h2
  | cons a as ih =>
    intro bs h1 h2
    cases bs with
    | nil => simp [charsLt] at h1
    | cons b bs =>
      simp only [charsLt] at h1 h2
      by_cases hab : a.toNat < b.toNat
      · have hba : ¬ b.toNat < a.toNat := by omega
        simp [hab, hba] at h2
      · by_cases hba : b.toNat < a.toNat
        · simp [hab, hba] at h1
        · simp [hab, hba] at h1 h2
          exact ih h1 h2

theorem charsLt_trans : ∀ {as bs cs : List Char},
    charsLt as bs = true → charsLt bs cs = true → charsLt as cs = true := by
  intro as
  induction as with
  | nil =>
    intro bs cs h1 h2
    cases bs with
    | nil => simp [charsLt] at h1
    | cons b bs =>
      cases cs with
      | nil => simp [charsLt] at h2
      | cons c cs => simp [charsLt]
  | cons a as ih =>
    intro bs cs h1 h2
    cases bs with
    | nil => simp [charsLt] at h1
    | cons b bs =>
      cases cs with
      | nil => simp [charsLt] at h2
      | cons c cs =>
        simp only [charsLt] at h1 h2 ⊢
        by_cases hab : a.toNat < b.toNat
        · by_cases hbc : b.toNat < c.toNat
          · have hac : a.toNat < c.toNat := by omega
            simp [hac]
          · by_cases hcb : c.toNat < b.toNat
            · simp [hbc, hcb] at h2
            · have hac : a.toNat < c.toNat := by omega
              simp [hac]
        · by_cases hba : b.toNat < a.toNat
          · simp [hab, hba] at h1
          · by_cases hbc : b.toNat < c.toNat
            · have hac : a.toNat < c.toNat := by omega
              simp [hac]
            · by_cases hcb : c.toNat < b.toNat
              · simp [hbc, hcb] at h2
              · have hac1 : ¬ a.toNat < c.toNat := by omega
                have hac2 : ¬ c.toNat < a.toNat := by omega
                simp [hab, hba, hbc, hcb, hac1, hac2] at h1 h2 ⊢
                exact ih h1 h2

theorem charsLt_eq_of_not_lt : ∀ {as bs : List Char},
    charsLt as bs = false → charsLt bs as = false → as = bs := by
  intro as
  induction as with
  | nil =>
    intro bs h1 _
    cases bs with
    | nil => rfl
    | cons b bs => simp [charsLt] at h1
  | cons a as ih =>
    intro bs h1 h2
    cases bs with
    | nil => simp [charsLt] at h2
    | cons b bs =>
      simp only [charsLt] at h1 h2
      by_cases hab : a.toNat < b.toNat
      · simp [hab] at h1
      · by_cases hba : b.toNat < a.toNat
        · simp [hab, hba] at h2
        · simp [hab, hba] at h1 h2
          have hn : a.toNat = b.toNat := by omega
          have hc : a = b := Char.ext (UInt32.ext hn)
          rw [hc, ih h1 h2]

theorem strLt_irrefl (s : String) : strLt s s = false := charsLt_irrefl s.data

theorem strLt_asymm {s t : String} (h1 : strLt s t = true) (h2 : strLt t s = true) : False :=
  charsLt_asymm h1 h2

theorem strLt_trans {s t u : String} (h1 : strLt s t = true) (h2 : strLt t u = true) :
    strLt s u = true := charsLt_trans h1 h2

theorem strLt_eq_of_not_lt {s t : String} (h1 : strLt s t = false) (h2 : strLt t s = false) :
    s = t := String.ext (charsLt_eq_of_not_lt h1 h2)

theorem strLt_cases {s t : String} (hne : s ≠ t) :
    (strLt s t = true ∧ strLt t s = false) ∨ (strLt s t = false ∧ strLt t s = true) := by
  cases h1 : strLt s t with
  | true =>
    left
    refine ⟨rfl, ?_⟩
    cases h2 : strLt t s with
    | true => exact (strLt_asymm h1 h2).elim
    | false => rfl
  | false =>
    right
    refine ⟨rfl, ?_⟩
    cases h2 : strLt t s with
    | true => rfl
    | false => exact (hne (strLt_eq_of_not_lt h1 h2)).elim

theorem strLt_le_trans {s t u : String} (h1 : strLt t s = false) (h2 : strLt u t = false) :
    strLt u s = false := by
  cases h : strLt u s with
  | false => rfl
  | true =>
    exfalso
    cases h3 : strLt t u with
    | true => exact absurd (strLt_trans h3 h) (by simp [h1])
    | false =>
      have he : u = t := strLt_eq_of_not_lt h2 h3
      rw [he] at h
      exact absurd h (by simp [h1])

instance : IsTotal ResourceEntry entryLe := ⟨by
  intro a b
  unfold entryLe
  cases h1 : strLt b.leaf_name a.leaf_name with
  | false => exact Or.inl rfl
  | true =>
    cases h2 : strLt a.leaf_name b.leaf_name with
    | false => exact Or.inr rfl
    | true => exact (strLt_asymm h2 h1).elim⟩

instance : IsTrans ResourceEntry entryLe := ⟨by
  intro a b c h1 h2
  unfold entryLe at h1 h2 ⊢
  exact strLt_le_trans h1 h2⟩

instance : IsAntisymm ResourceEntry entryLt := ⟨by
  intro a b h1 h2
  exact (strLt_asymm h1 h2).elim⟩

theorem entryRne_symm : ∀ {a b : ResourceEntry}, entryRne a b → entryRne b a := by
  intro a b h hp hleaf
  exact h hp.symm hleaf.symm

theorem insertionSort_eq_of_perm {rs1 rs2 : List ResourceEntry}
    (hperm : rs1.Perm rs2)
    (hne : rs1.Pairwise (fun a b => a.leaf_name ≠ b.leaf_name)) :
    List.insertionSort entryLe rs1 = List.insertionSort entryLe rs2 := by
  have hp : (List.insertionSort entryLe rs1).Perm (List.insertionSort entryLe rs2) :=
    ((List.perm_insertionSort entryLe rs1).trans hperm).trans
      (List.perm_insertionSort entryLe rs2).symm
  have hs1 := List.sorted_insertionSort entryLe rs1
  have hs2 := List.sorted_insertionSort entryLe rs2
  have hsym : ∀ {x y : ResourceEntry}, x.leaf_name ≠ y.leaf_name → y.leaf_name ≠ x.leaf_name :=
    fun h => h.symm
  have hne1 : (List.insertionSort entryLe rs1).Pairwise
      (fun a b => a.leaf_name ≠ b.leaf_name) :=
    hne.perm (List.perm_insertionSort entryLe rs1).symm hsym
  have hne2 : (List.insertionSort entryLe rs2).Pairwise
      (fun a b => a.leaf_name ≠ b.leaf_name) :=
    (hne.perm hperm hsym).perm (List.perm_insertionSort entryLe rs2).symm hsym
  have hup : ∀ {l : List ResourceEntry}, List.Sorted entryLe l →
      l.Pairwise (fun a b => a.leaf_name ≠ b.leaf_name) → List.Sorted entryLt l := by
    intro l hs hn
    have := hs.and hn
    exact this.imp (fun hab => by
      obtain ⟨hle, hnab⟩ := hab
      unfold entryLe at hle
      unfold entryLt
      cases h : strLt _ _ with
      | true => rfl
      | false => exact (hnab (strLt_eq_of_not_lt h hle)).elim)
  exact List.eq_of_perm_of_sorted hp (hup hs1 hne1) (hup hs2 hne2)

mutual
theorem nodeEquiv_refl : ∀ t : Node, nodeEquiv t t
  | .mk cs rs => by
    rw [nodeEquiv]
    exact ⟨List.Perm.refl rs, childEquiv_refl cs⟩

theorem childEquiv_refl : ∀ cs : ChildMap, childEquiv cs cs
  | .nil => by rw [childEquiv]; trivial
  | .cons k c rest => by
    rw [childEquiv]
    exact ⟨rfl, nodeEquiv_refl c, childEquiv_refl rest⟩
end

mutual
theorem nodeEquiv_trans : ∀ t1 t2 t3 : Node, nodeEquiv t1 t2 → nodeEquiv t2 t3 → nodeEquiv t1 t3
  | .mk cs1 rs1, .mk cs2 rs2, .mk cs3 rs3, h12, h23 => by
    rw [nodeEquiv] at h12 h23 ⊢
    exact ⟨h12.1.trans h23.1, childEquiv_trans cs1 cs2 cs3 h12.2 h23.2⟩

theorem childEquiv_trans :
    ∀ c1 c2 c3 : ChildMap, childEquiv c1 c2 → childEquiv c2 c3 → childEquiv c1 c3
  | .nil, .nil, .nil, _, _ => by rw [childEquiv]; trivial
  | .nil, .cons _ _ _, _, h12, _ => by rw [childEquiv] at h12; exact h12.elim
  | .cons _ _ _, .nil, _, h12, _ => by rw [childEquiv] at h12; exact h12.elim
  | .nil, .nil, .cons _ _ _, _, h23 => by rw [childEquiv] at h23; exact h23.elim
  | .cons _ _ _, .cons _ _ _, .nil, _, h23 => by rw [childEquiv] at h23; exact h23.elim
  | .cons k1 c1 r1, .cons k2 c2 r2, .cons k3 c3 r3, h12, h23 => by
    rw [childEquiv] at h12 h23 ⊢
    exact ⟨h12.1.trans h23.1, nodeEquiv_trans c1 c2 c3 h12.2.1 h23.2.1,
      childEquiv_trans r1 r2 r3 h12.2.2 h23.2.2⟩
end

theorem childUpdate_comp : ∀ (cs : ChildMap) (k : String) (f g : Node → Node),
    childUpdate (childUpdate cs k f) k g = childUpdate cs k (fun n => g (f n))
  | .nil, k, f, g => by simp [childUpdate, strLt_irrefl]
  | .cons k' n rest, k, f, g => by
    by_cases h1 : strLt k k' = true
    · simp [childUpdate, h1, strLt_irrefl]
    · by_cases h2 : k = k'
      · subst h2
        simp [childUpdate, h1, strLt_irrefl]
      · simp [childUpdate, h1, h2, childUpdate_comp rest k f g]

theorem childUpdate_comm_aux : ∀ (cs : ChildMap) {k1 k2 : String},
    strLt k1 k2 = true → strLt k2 k1 = false → ∀ (f g : Node → Node),
    childUpdate (childUpdate cs k1 f) k2 g = childUpdate (childUpdate cs k2 g) k1 f
  | .nil, k1, k2, h12, h21, f, g => by
    have hne : k1 ≠ k2 := by
      intro h
      rw [h] at h12
      exact absurd h12 (by simp [strLt_irrefl])
    simp [childUpdate, h12, h21, hne, Ne.symm hne]
  | .cons k n rest, k1, k2, h12, h21, f, g => by
    have hne : k1 ≠ k2 := by
      intro h
      rw [h] at h12
      exact absurd h12 (by simp [strLt_irrefl])
    by_cases ha : strLt k1 k = true
    · -- k1 sits before the head
      by_cases hb : strLt k2 k = true
      · -- both before the head; k1 before k2
        simp [childUpdate, ha, hb, h12, h21, hne, Ne.symm hne]
      · by_cases hc : k2 = k
        · -- k2 hits the head, k1 before it
          subst hc
          simp [childUpdate, ha, h12, h21, hne, Ne.symm hne, strLt_irrefl]
        · -- k1 before the head, k2 after it
          simp [childUpdate, ha, hb, hc, h12, h21, hne, Ne.symm hne]
    · by_cases he : k1 = k
      · -- k1 hits the head
        subst he
        by_cases hb : strLt k2 k1 = true
        · exact absurd hb (by simp [h21])
        · by_cases hc : k2 = k1
          · exact absurd hc.symm hne
          · simp [childUpdate, hb, hc, h12, strLt_irrefl]
      · -- k1 after the head
        have hb : strLt k2 k = false := by
          cases hx : strLt k2 k with
          | false => rfl
          | true =>
            exfalso
            have := strLt_trans h12 hx
            exact absurd this (by simp [ha])
        by_cases hc : k2 = k
        · exact absurd (hc ▸ h12) (by simp [ha])
        · -- both after the head: recurse
          simp [childUpdate, ha, hb, he, hc, childUpdate_comm_aux rest h12 h21 f g]

theorem childUpdate_comm (cs : ChildMap) {k1 k2 : String} (hne : k1 ≠ k2)
    (f g : Node → Node) :
    childUpdate (childUpdate cs k1 f) k2 g = childUpdate (childUpdate cs k2 g) k1 f := by
  rcases strLt_cases hne with ⟨h12, h21⟩ | ⟨h12, h21⟩
  · exact childUpdate_comm_aux cs h12 h21 f g
  · exact (childUpdate_comm_aux cs h21 h12 g f).symm

theorem childUpdate_congr_equiv : ∀ (cs1 cs2 : ChildMap), childEquiv cs1 cs2 →
    ∀ (k : String) (F G : Node → Node),
    (∀ n1 n2, nodeEquiv n1 n2 → nodeEquiv (F n1) (G n2)) →
    childEquiv (childUpdate cs1 k F) (childUpdate cs2 k G)
  | .nil, .nil, _, k, F, G, hFG => by
    rw [childUpdate, childUpdate, childEquiv]
    exact ⟨rfl, hFG _ _ (nodeEquiv_refl _), by rw [childEquiv]; trivial⟩
  | .nil, .cons _ _ _, h, _, _, _, _ => by rw [childEquiv] at h; exact h.elim
  | .cons _ _ _, .nil, h, _, _, _, _ => by rw [childEquiv] at h; exact h.elim
  | .cons k1 c1 r1, .cons k2 c2 r2, h, k, F, G, hFG => by
    rw [childEquiv] at h
    obtain ⟨hk, hc, hr⟩ := h
    subst hk
    by_cases h1 : strLt k k1 = true
    · rw [childUpdate, childUpdate, if_pos h1, if_pos h1, childEquiv]
      refine ⟨rfl, hFG _ _ (nodeEquiv_refl _), ?_⟩
      rw [childEquiv]
      exact ⟨rfl, hc, hr⟩
    · by_cases h2 : k = k1
      · subst h2
        rw [childUpdate, childUpdate, if_neg h1, if_neg h1, if_pos rfl, if_pos rfl, childEquiv]
        exact ⟨rfl, hFG _ _ hc, hr⟩
      · rw [childUpdate, childUpdate, if_neg h1, if_neg h1, if_neg h2, if_neg h2, childEquiv]
        exact ⟨rfl, hc, childUpdate_congr_equiv r1 r2 hr k F G hFG⟩

theorem insertPath_congr : ∀ (p : List String) (t1 t2 : Node) (e : ResourceEntry),
    nodeEquiv t1 t2 → nodeEquiv (insertPath p t1 e) (insertPath p t2 e) := by
  intro p
  induction p with
  | nil =>
    intro t1 t2 e h
    cases t1 with | mk cs1 rs1 =>
    cases t2 with | mk cs2 rs2 =>
    rw [nodeEquiv] at h
    simp only [insertPath]
    rw [nodeEquiv]
    exact ⟨h.1.append_right [e], h.2⟩
  | cons s q ih =>
    intro t1 t2 e h
    cases t1 with | mk cs1 rs1 =>
    cases t2 with | mk cs2 rs2 =>
    rw [nodeEquiv] at h
    simp only [insertPath]
    rw [nodeEquiv]
    exact ⟨h.1, childUpdate_congr_equiv cs1 cs2 h.2 s _ _ (fun n1 n2 hn => ih n1 n2 e hn)⟩

theorem insertPath_swap : ∀ (p1 : List String) (e1 : ResourceEntry) (p2 : List String)
    (e2 : ResourceEntry) (t : Node),
    nodeEquiv (insertPath p2 (insertPath p1 t e1) e2)
      (insertPath p1 (insertPath p2 t e2) e1) := by
  intro p1
  induction p1 with
  | nil =>
    intro e1 p2 e2 t
    cases t with | mk cs rs =>
    cases p2 with
    | nil =>
      simp only [insertPath]
      rw [nodeEquiv]
      refine ⟨?_, childEquiv_refl cs⟩
      rw [List.append_assoc, List.append_assoc]
      exact List.Perm.append_left rs (List.Perm.swap e2 e1 [])
    | cons s q =>
      simp only [insertPath]
      exact nodeEquiv_refl _
  | cons s1 q1 ih =>
    intro e1 p2 e2 t
    cases t with | mk cs rs =>
    cases p2 with
    | nil =>
      simp only [insertPath]
      exact nodeEquiv_refl _
    | cons s2 q2 =>
      simp only [insertPath]
      rw [nodeEquiv]
      refine ⟨List.Perm.refl rs, ?_⟩
      by_cases hs : s1 = s2
      · subst hs
        rw [childUpdate_comp, childUpdate_comp]
        exact childUpdate_congr_equiv cs cs (childEquiv_refl cs) s1 _ _
          (fun n1 n2 hn => nodeEquiv_trans _ _ _ (ih e1 q2 e2 n1)
            (insertPath_congr q1 _ _ e1 (insertPath_congr q2 _ _ e2 hn)))
      · rw [childUpdate_comm cs (Ne.symm hs) _ _]
        exact childEquiv_refl _

theorem foldl_insert_congr : ∀ (es : List ResourceEntry) (t1 t2 : Node),
    nodeEquiv t1 t2 →
    nodeEquiv (es.foldl (fun t e => insertPath e.namespace_path t e) t1)
      (es.foldl (fun t e => insertPath e.namespace_path t e) t2) := by
  intro es
  induction es with
  | nil => intro t1 t2 h; exact h
  | cons e l ih =>
    intro t1 t2 h
    exact ih _ _ (insertPath_congr e.namespace_path t1 t2 e h)

theorem foldl_insert_perm : ∀ {es1 es2 : List ResourceEntry}, es1.Perm es2 →
    ∀ (t1 t2 : Node), nodeEquiv t1 t2 →
    nodeEquiv (es1.foldl (fun t e => insertPath e.namespace_path t e) t1)
      (es2.foldl (fun t e => insertPath e.namespace_path t e) t2) := by
  intro es1 es2 hp
  induction hp with
  | nil => intro t1 t2 h; exact h
  | cons x _ ih =>
    intro t1 t2 h
    exact ih _ _ (insertPath_congr x.namespace_path t1 t2 x h)
  | swap x y l =>
    intro t1 t2 h
    simp only [List.foldl_cons]
    refine foldl_insert_congr l _ _ ?_
    refine nodeEquiv_trans _ _ _ (insertPath_swap y.namespace_path y x.namespace_path x t1) ?_
    exact insertPath_congr y.namespace_path _ _ y (insertPath_congr x.namespace_path _ _ x h)
  | trans _ _ ih1 ih2 =>
    intro t1 t2 h
    exact nodeEquiv_trans _ _ _ (ih1 t1 t1 (nodeEquiv_refl t1)) (ih2 t1 t2 h)

theorem build_namespace_tree_perm {es1 es2 : List ResourceEntry} (hp : es1.Perm es2) :
    nodeEquiv (build_namespace_tree es1) (build_namespace_tree es2) := by
  unfold build_namespace_tree
  exact foldl_insert_perm hp emptyNode emptyNode (nodeEquiv_refl emptyNode)

theorem nodePathOk_empty (pre : List String) : nodePathOk pre emptyNode := by
  show nodePathOk pre (.mk .nil [])
  rw [nodePathOk]
  exact ⟨fun e he => absurd he (List.not_mem_nil e), by rw [childPathOk]; trivial⟩

theorem childUpdate_pathOk : ∀ (cs : ChildMap) {pre : List String}, childPathOk pre cs →
    ∀ (k : String) (F : Node → Node),
    (∀ n, nodePathOk (pre ++ [k]) n → nodePathOk (pre ++ [k]) (F n)) →
    childPathOk pre (childUpdate cs k F)
  | .nil, pre, _, k, F, hF => by
    rw [childUpdate, childPathOk]
    exact ⟨hF emptyNode (nodePathOk_empty _), by rw [childPathOk]; trivial⟩
  | .cons k' c rest, pre, h, k, F, hF => by
    rw [childPathOk] at h
    by_cases h1 : strLt k k' = true
    · rw [childUpdate, if_pos h1, childPathOk]
      exact ⟨hF emptyNode (nodePathOk_empty _), by rw [childPathOk]; exact h⟩
    · by_cases h2 : k = k'
      · subst h2
        rw [childUpdate, if_neg h1, if_pos rfl, childPathOk]
        exact ⟨hF c h.1, h.2⟩
      · rw [childUpdate, if_neg h1, if_neg h2, childPathOk]
        exact ⟨h.1, childUpdate_pathOk rest h.2 k F hF⟩

theorem insertPath_pathOk : ∀ (p : List String) {pre : List String} (t : Node)
    (e : ResourceEntry), nodePathOk pre t → e.namespace_path = pre ++ p →
    nodePathOk pre (insertPath p t e) := by
  intro p
  induction p with
  | nil =>
    intro pre t e ht he
    cases t with | mk cs rs =>
    rw [nodePathOk] at ht
    simp only [insertPath]
    rw [nodePathOk]
    refine ⟨?_, ht.2⟩
    intro e' he'
    rcases List.mem_append.mp he' with h | h
    · exact ht.1 e' h
    · have he2 : e' = e := List.mem_singleton.mp h
      subst he2
      simpa using he
  | cons s q ih =>
    intro pre t e ht he
    cases t with | mk cs rs =>
    rw [nodePathOk] at ht
    simp only [insertPath]
    rw [nodePathOk]
    refine ⟨ht.1, ?_⟩
    refine childUpdate_pathOk cs ht.2 s _ ?_
    intro n hn
    refine ih n e hn ?_
    rw [he]
    simp

theorem foldl_insert_pathOk : ∀ (es : List ResourceEntry) (t : Node),
    nodePathOk [] t →
    nodePathOk [] (es.foldl (fun t e => insertPath e.namespace_path t e) t) := by
  intro es
  induction es with
  | nil => intro t h; exact h
  | cons e l ih =>
    intro t h
    exact ih _ (insertPath_pathOk e.namespace_path t e h (by simp))

theorem build_pathOk (es : List ResourceEntry) : nodePathOk [] (build_namespace_tree es) := by
  unfold build_namespace_tree
  exact foldl_insert_pathOk es emptyNode (nodePathOk_empty [])

theorem childUpdate_entries_perm : ∀ (cs : ChildMap) (k : String) (F : Node → Node)
    (x : ResourceEntry),
    (∀ n, (nodeEntries (F n)).Perm (x :: nodeEntries n)) →
    (childEntries (childUpdate cs k F)).Perm (x :: childEntries cs)
  | .nil, k, F, x, hF => by
    rw [childUpdate]
    simp only [childEntries]
    have h := hF emptyNode
    rw [show nodeEntries emptyNode = [] from rfl] at h
    simpa using h
  | .cons k' c rest, k, F, x, hF => by
    by_cases h1 : strLt k k' = true
    · rw [childUpdate, if_pos h1, childEntries]
      have h := hF emptyNode
      rw [show nodeEntries emptyNode = [] from rfl] at h
      exact h.append_right _
    · by_cases h2 : k = k'
      · subst h2
        rw [childUpdate, if_neg h1, if_pos rfl, childEntries, childEntries]
        exact (hF c).append_right _
      · rw [childUpdate, if_neg h1, if_neg h2, childEntries, childEntries]
        have h := childUpdate_entries_perm rest k F x hF
        refine List.Perm.trans (List.Perm.append_left _ h) ?_
        exact List.perm_middle

theorem insertPath_entries : ∀ (p : List String) (t : Node) (e : ResourceEntry),
    (nodeEntries (insertPath p t e)).Perm (e :: nodeEntries t) := by
  intro p
  induction p with
  | nil =>
    intro t e
    cases t with | mk cs rs =>
    simp only [insertPath]
    rw [nodeEntries, nodeEntries]
    rw [← List.append_assoc]
    exact List.perm_append_singleton e _
  | cons s q ih =>
    intro t e
    cases t with | mk cs rs =>
    simp only [insertPath]
    rw [nodeEntries, nodeEntries]
    have h := childUpdate_entries_perm cs s _ e (fun n => ih n e)
    exact h.append_right rs

theorem foldl_insert_entries : ∀ (es : List ResourceEntry) (t : Node),
    (nodeEntries (es.foldl (fun t e => insertPath e.namespace_path t e) t)).Perm
      (nodeEntries t ++ es) := by
  intro es
  induction es with
  | nil => intro t; simp
  | cons e l ih =>
    intro t
    simp only [List.foldl_cons]
    refine List.Perm.trans (ih _) ?_
    refine List.Perm.trans ((insertPath_entries e.namespace_path t e).append_right l) ?_
    exact List.perm_middle.symm

theorem build_entries_perm (es : List ResourceEntry) :
    (nodeEntries (build_namespace_tree es)).Perm es := by
  unfold build_namespace_tree
  have h := foldl_insert_entries es emptyNode
  rw [show nodeEntries emptyNode = [] from rfl] at h
  simpa using h

mutual
theorem sort_eq_of_equiv : ∀ (t1 : Node) (pre : List String) (t2 : Node), nodeEquiv t1 t2 →
    nodePathOk pre t1 → (nodeEntries t1).Pairwise entryRne →
    sort_namespace_tree t1 = sort_namespace_tree t2
  | .mk cs1 rs1, pre, .mk cs2 rs2, heq, hpath, hpw => by
    rw [nodeEquiv] at heq
    rw [nodePathOk] at hpath
    rw [nodeEntries] at hpw
    rw [List.pairwise_append] at hpw
    rw [sort_namespace_tree, sort_namespace_tree]
    have hrs : List.insertionSort entryLe rs1 = List.insertionSort entryLe rs2 := by
      refine insertionSort_eq_of_perm heq.1 ?_
      refine List.Pairwise.imp_of_mem ?_ hpw.2.1
      intro a b ha hb hr
      exact hr ((hpath.1 a ha).trans (hpath.1 b hb).symm)
    rw [hrs, sortChildren_eq_of_equiv cs1 pre cs2 heq.2 hpath.2 hpw.1]

theorem sortChildren_eq_of_equiv : ∀ (cs1 : ChildMap) (pre : List String) (cs2 : ChildMap),
    childEquiv cs1 cs2 → childPathOk pre cs1 → (childEntries cs1).Pairwise entryRne →
    sortChildren cs1 = sortChildren cs2
  | .nil, _, .nil, _, _, _ => rfl
  | .nil, _, .cons _ _ _, h, _, _ => by rw [childEquiv] at h; exact h.elim
  | .cons _ _ _, _, .nil, h, _, _ => by rw [childEquiv] at h; exact h.elim
  | .cons k1 c1 r1, pre, .cons k2 c2 r2, h, hp, hpw => by
    rw [childEquiv] at h
    obtain ⟨hk, hc, hr⟩ := h
    subst hk
    rw [childPathOk] at hp
    rw [childEntries, List.pairwise_append] at hpw
    rw [sortChildren, sortChildren]
    rw [sort_eq_of_equiv c1 (pre ++ [k1]) c2 hc hp.1 hpw.1,
        sortChildren_eq_of_equiv r1 pre r2 hr hp.2 hpw.2.1]
end

theorem sorted_tree_eq {es1 es2 : List ResourceEntry} (hp : es1.Perm es2)
    (hpw : es1.Pairwise entryRne) :
    sort_namespace_tree (build_namespace_tree es1)
      = sort_namespace_tree (build_namespace_tree es2) := by
  refine sort_eq_of_equiv _ [] _ (build_namespace_tree_perm hp) (build_pathOk es1) ?_
  exact hpw.perm (build_entries_perm es1).symm (fun h => entryRne_symm h)

theorem find?_eq_head_filter {α : Type} (p : α → Bool) :
    ∀ l : List α, l.find? p = (l.filter p).head? := by
  intro l
  induction l with
  | nil => rfl
  | cons x xs ih =>
    cases h : p x with
    | true => simp [List.find?_cons, List.filter_cons, h]
    | false =>
      have h' : ¬ p x = true := by simp [h]
      rw [List.find?_cons_of_neg xs h', List.filter_cons_of_neg h', ih]

theorem countP_key_le_one {α : Type} (k : String) :
    ∀ {l : List (String × α)}, (l.map Prod.fst).Nodup →
    l.countP (fun p => p.1 = k) ≤ 1 := by
  intro l
  induction l with
  | nil =>
    intro _
    rw [List.countP_nil]
    exact Nat.zero_le 1
  | cons x xs ih =>
    intro hnd
    rw [List.map_cons, List.nodup_cons] at hnd
    rw [List.countP_cons]
    by_cases hx : x.1 = k
    · have hz : xs.countP (fun p => p.1 = k) = 0 := by
        rw [List.countP_eq_zero]
        intro a ha hak
        have : a.1 = k := by simpa using hak
        exact hnd.1 (List.mem_map.mpr ⟨a, ha, by rw [this, hx]⟩)
      simp [hz, hx]
    · simp only [hx]
      simpa using ih hnd.2

theorem perm_eq_of_length_le_one {α : Type} :
    ∀ {l1 l2 : List α}, l1.Perm l2 → l1.length ≤ 1 → l1 = l2 := by
  intro l1 l2 h hl
  cases l1 with
  | nil => exact (List.perm_nil.mp h.symm).symm
  | cons x xs =>
    cases xs with
    | nil => exact List.singleton_perm.mp h
    | cons y ys => simp at hl

theorem find?_eq_of_perm_nodup_keys {α : Type} {l1 l2 : List (String × α)}
    (h : l1.Perm l2) (hnd : (l1.map Prod.fst).Nodup) (k : String) :
    l1.find? (fun p => p.1 = k) = l2.find? (fun p => p.1 = k) := by
  rw [find?_eq_head_filter, find?_eq_head_filter]
  have hf : l1.filter (fun p => p.1 = k) = l2.filter (fun p => p.1 = k) := by
    refine perm_eq_of_length_le_one (h.filter _) ?_
    rw [← List.countP_eq_length_filter]
    exact countP_key_le_one k hnd
  rw [hf]

theorem rmapGet_eq_find? (res : RMap) (key : String) :
    rmapGet res key
      = (res.find? (fun (p : String × List (String × ResourceValue)) => p.1 = key)).map
          Prod.snd := by
  induction res with
  | nil => rfl
  | cons x rest ih =>
    cases x with
    | mk k v =>
      by_cases h : k = key
      · simp [rmapGet, List.find?_cons, h]
      · simp [rmapGet, List.find?_cons, h, ih]

theorem rmapGet_eq_of_perm {a b : RMap} (h : a.Perm b) (hnd : (a.map Prod.fst).Nodup)
    (k : String) : rmapGet a k = rmapGet b k := by
  rw [rmapGet_eq_find?, rmapGet_eq_find?, find?_eq_of_perm_nodup_keys h hnd k]

theorem rmapGet_mem {a : RMap} {k : String} {items : List (String × ResourceValue)}
    (h : rmapGet a k = some items) : (k, items) ∈ a := by
  rw [rmapGet_eq_find?] at h
  cases hf : a.find? (fun (p : String × List (String × ResourceValue)) => p.1 = k) with
  | none => rw [hf] at h; simp at h
  | some p =>
    rw [hf] at h
    have hp1 : p.1 = k := by simpa using List.find?_some hf
    have hmem := List.mem_of_find?_eq_some hf
    have hps : p.2 = items := by simpa using h
    have hpk : p = (k, items) := by
      cases p with
      | mk p1 p2 =>
        simp only at hp1 hps
        rw [hp1, hps]
    rw [← hpk]
    exact hmem

theorem forall2_keys_eq {a b : RMap} (h : List.Forall₂ innerPerm a b) :
    a.map Prod.fst = b.map Prod.fst := by
  induction h with
  | nil => rfl
  | cons hxy _ ih => simp [hxy.1, ih]

theorem rmapGet_forall2 {a b : RMap} (h : List.Forall₂ innerPerm a b) (k : String) :
    (rmapGet a k = none ∧ rmapGet b k = none) ∨
    ∃ va vb, rmapGet a k = some va ∧ rmapGet b k = some vb ∧ va.Perm vb := by
  induction h with
  | nil => exact Or.inl ⟨rfl, rfl⟩
  | @cons x y l1 l2 hxy htail ih =>
    obtain ⟨hk, hv⟩ := hxy
    cases x with
    | mk x1 x2 =>
      cases y with
      | mk y1 y2 =>
        simp only at hk
        subst hk
        by_cases hx : x1 = k
        · exact Or.inr ⟨x2, y2, by simp [rmapGet, hx], by simp [rmapGet, hx], hv⟩
        · simpa [rmapGet, hx] using ih

theorem lookupRV_eq_of {resA mid resB : RMap}
    (hf : List.Forall₂ innerPerm resA mid) (hp : mid.Perm resB)
    (hndA : (resA.map Prod.fst).Nodup)
    (hindA : ∀ p ∈ resA, (p.2.map Prod.fst).Nodup) :
    ∀ rt k, lookupRV resA rt k = lookupRV resB rt k := by
  intro rt k
  have hndmid : (mid.map Prod.fst).Nodup := forall2_keys_eq hf ▸ hndA
  have hgm : ∀ q, rmapGet mid q = rmapGet resB q := fun q => rmapGet_eq_of_perm hp hndmid q
  rcases rmapGet_forall2 hf rt with ⟨ha, hb⟩ | ⟨va, vb, ha, hb, hpv⟩
  · have hb' : rmapGet resB rt = none := (hgm rt).symm.trans hb
    simp [lookupRV, ha, hb']
  · have hb' : rmapGet resB rt = some vb := (hgm rt).symm.trans hb
    have hndva : (va.map Prod.fst).Nodup := hindA _ (rmapGet_mem ha)
    simp only [lookupRV, ha, hb']
    rw [find?_eq_of_perm_nodup_keys hpv hndva k]

theorem resolve_parts_core_congr (resX resY : RMap) (fuel : Nat)
    (hsv : ∀ rt key visited, resolve_string_value resX fuel rt key visited
      = resolve_string_value resY fuel rt key visited) :
    ∀ (parts : List InterpolationPart) (visited : List String) (acc : String),
      resolve_parts_core resX fuel parts visited acc
        = resolve_parts_core resY fuel parts visited acc := by
  intro parts
  induction parts with
  | nil => intro visited acc; rw [resolve_parts_core, resolve_parts_core]
  | cons part rest ih =>
    intro visited acc
    cases part with
    | Text t =>
      rw [resolve_parts_core, resolve_parts_core]
      exact ih visited (acc ++ t)
    | Reference rt key =>
      rw [resolve_parts_core, resolve_parts_core, ← hsv rt key visited]
      cases hr : resolve_string_value resX fuel rt key visited with
      | mk r v2 =>
        cases r with
        | some resolved => exact ih v2 (acc ++ resolved)
        | none => exact ih v2 (acc ++ "@" ++ key)

theorem extract_string_congr (resX resY : RMap) (fuel : Nat)
    (hsv : ∀ rt key visited, resolve_string_value resX fuel rt key visited
      = resolve_string_value resY fuel rt key visited) :
    ∀ (value : ResourceValue) (visited : List String),
      extract_string_from_value resX fuel value visited
        = extract_string_from_value resY fuel value visited := by
  intro value visited
  cases value with
  | String t => rw [extract_string_from_value, extract_string_from_value]
  | Reference rt key =>
    rw [extract_string_from_value, extract_string_from_value]
    exact hsv rt key visited
  | InterpolatedString parts =>
    rw [extract_string_from_value, extract_string_from_value,
        resolve_interpolation_parts, resolve_interpolation_parts,
        resolve_parts_core_congr resX resY fuel hsv parts visited ""]
  | Number v => rw [extract_string_from_value, extract_string_from_value]
  | Bool v => rw [extract_string_from_value, extract_string_from_value]
  | Color v => rw [extract_string_from_value, extract_string_from_value]
  | Url v => rw [extract_string_from_value, extract_string_from_value]
  | Dimension v => rw [extract_string_from_value, extract_string_from_value]
  | StringArray v => rw [extract_string_from_value, extract_string_from_value]
  | IntArray v => rw [extract_string_from_value, extract_string_from_value]
  | FloatArray v => rw [extract_string_from_value, extract_string_from_value]
  | Template v => rw [extract_string_from_value, extract_string_from_value]

theorem lookupRV_none {res : RMap} {rt k : String} (h : rmapGet res rt = none) :
    lookupRV res rt k = none := by
  unfold lookupRV
  rw [h]

theorem lookupRV_some {res : RMap} {rt k : String} {items : List (String × ResourceValue)}
    (h : rmapGet res rt = some items) :
    lookupRV res rt k
      = (items.find? (fun (p : String × ResourceValue) => p.1 = k)).map Prod.snd := by
  unfold lookupRV
  rw [h]

theorem resolve_string_value_congr (resX resY : RMap)
    (h : ∀ rt key, lookupRV resX rt key = lookupRV resY rt key) :
    ∀ (fuel : Nat) (rt key : String) (visited : List String),
      resolve_string_value resX fuel rt key visited
        = resolve_string_value resY fuel rt key visited := by
  intro fuel
  induction fuel with
  | zero => intro rt key visited; rw [resolve_string_value, resolve_string_value]
  | succ fuel ih =>
    intro rt key visited
    have hex := extract_string_congr resX resY fuel ih
    rw [resolve_string_value, resolve_string_value]
    by_cases hc : (rt ++ ":" ++ key) ∈ visited
    · simp only [if_pos hc]
    · simp only [if_neg hc]
      have hlk := h rt key
      cases hX : rmapGet resX rt with
      | none =>
        cases hY : rmapGet resY rt with
        | none => simp only []
        | some itemsY =>
          rw [lookupRV_none hX, lookupRV_some hY] at hlk
          cases hfY : itemsY.find? (fun (p : String × ResourceValue) => p.1 = key) with
          | none => simp only [hfY]
          | some nv => rw [hfY] at hlk; simp at hlk
      | some itemsX =>
        cases hY : rmapGet resY rt with
        | none =>
          rw [lookupRV_some hX, lookupRV_none hY] at hlk
          cases hfX : itemsX.find? (fun (p : String × ResourceValue) => p.1 = key) with
          | none => simp only [hfX]
          | some nv => rw [hfX] at hlk; simp at hlk
        | some itemsY =>
          rw [lookupRV_some hX, lookupRV_some hY] at hlk
          cases hfX : itemsX.find? (fun (p : String × ResourceValue) => p.1 = key) with
          | none =>
            cases hfY : itemsY.find? (fun (p : String × ResourceValue) => p.1 = key) with
            | none => simp only [hfX, hfY]
            | some nv => rw [hfX, hfY] at hlk; simp at hlk
          | some nvX =>
            cases hfY : itemsY.find? (fun (p : String × ResourceValue) => p.1 = key) with
            | none => rw [hfX, hfY] at hlk; simp at hlk
            | some nvY =>
              rw [hfX, hfY] at hlk
              have hv : nvX.2 = nvY.2 := by simpa using hlk
              simp only [hfX, hfY, hv,
                hex nvY.2 ((rt ++ ":" ++ key) :: visited)]

theorem resolve_interp_congr (resX resY : RMap)
    (h : ∀ rt key, lookupRV resX rt key = lookupRV resY rt key)
    (fuel : Nat) (parts : List InterpolationPart) (visited : List String) :
    resolve_interpolation_parts resX fuel parts visited
      = resolve_interpolation_parts resY fuel parts visited := by
  rw [resolve_interpolation_parts, resolve_interpolation_parts,
      resolve_parts_core_congr resX resY fuel
        (fun rt key v => resolve_string_value_congr resX resY h fuel rt key v)
        parts visited ""]

theorem any_eq_of_perm {α : Type} {l1 l2 : List α} (h : l1.Perm l2) (p : α → Bool) :
    l1.any p = l2.any p := by
  induction h with
  | nil => rfl
  | cons x _ ih => simp [List.any_cons, ih]
  | swap x y l => simp [List.any_cons, Bool.or_left_comm]
  | trans _ _ ih1 ih2 => rw [ih1, ih2]

theorem needsBigDecimal_congr {resA mid resB : RMap}
    (hf : List.Forall₂ innerPerm resA mid) (hp : mid.Perm resB)
    (hndA : (resA.map Prod.fst).Nodup) :
    needsBigDecimal resA = needsBigDecimal resB := by
  have hndmid : (mid.map Prod.fst).Nodup := forall2_keys_eq hf ▸ hndA
  have hgm : rmapGet mid "number" = rmapGet resB "number" :=
    rmapGet_eq_of_perm hp hndmid "number"
  unfold needsBigDecimal
  rcases rmapGet_forall2 hf "number" with ⟨ha, hb⟩ | ⟨va, vb, ha, hb, hpv⟩
  · rw [ha, hgm.symm.trans hb]
  · rw [ha, hgm.symm.trans hb]
    exact any_eq_of_perm hpv _

theorem forall2_lengths_eq {a b : RMap} (hf : List.Forall₂ innerPerm a b) :
    a.map (fun rt_items => rt_items.2.length)
      = b.map (fun rt_items => rt_items.2.length) := by
  induction hf with
  | nil => rfl
  | cons hxy _ ih => simp [ih, hxy.2.length_eq]

theorem rmapEntryCount_congr {resA mid resB : RMap}
    (hf : List.Forall₂ innerPerm resA mid) (hp : mid.Perm resB) :
    rmapEntryCount resA = rmapEntryCount resB := by
  unfold rmapEntryCount
  rw [forall2_lengths_eq hf]
  exact List.Perm.sum_eq (hp.map _)

theorem collect_entries_forall2 {resA mid : RMap} (hf : List.Forall₂ innerPerm resA mid) :
    (collect_entries resA).Perm (collect_entries mid) := by
  unfold collect_entries
  induction hf with
  | nil => exact List.Perm.refl _
  | @cons x y l1 l2 hxy htail ih =>
    simp only [List.flatMap_cons]
    refine List.Perm.append ?_ ih
    cases x with
    | mk x1 x2 =>
      cases y with
      | mk y1 y2 =>
        obtain ⟨hk, hv⟩ := hxy
        simp only at hk
        subst hk
        exact List.Perm.filterMap _ hv

theorem collect_entries_perm_of {resA mid resB : RMap}
    (hf : List.Forall₂ innerPerm resA mid) (hp : mid.Perm resB) :
    (collect_entries resA).Perm (collect_entries resB) := by
  refine List.Perm.trans (collect_entries_forall2 hf) ?_
  unfold collect_entries
  exact List.Perm.flatMap_right _ hp

theorem emit_string_resource_congr (resX resY : RMap) (fuel : Nat)
    (hintp : ∀ parts visited, resolve_interpolation_parts resX fuel parts visited
      = resolve_interpolation_parts resY fuel parts visited)
    (pad const_name : String) (entry : ResourceEntry) :
    emit_string_resource resX fuel pad const_name entry
      = emit_string_resource resY fuel pad const_name entry := by
  cases hv : entry.value <;> simp [emit_string_resource, hv, hintp]

theorem emit_resource_congr (fdisp : String → String) (resX resY : RMap) (fuel : Nat)
    (hintp : ∀ parts visited, resolve_interpolation_parts resX fuel parts visited
      = resolve_interpolation_parts resY fuel parts visited)
    (entry : ResourceEntry) (indent : Nat) :
    emit_resource fdisp resX fuel entry indent = emit_resource fdisp resY fuel entry indent := by
  by_cases hrt : entry.resource_type = "string"
  · simp only [emit_resource, if_pos hrt]
    exact emit_string_resource_congr resX resY fuel hintp _ _ entry
  · simp only [emit_resource, if_neg hrt]

theorem emitResources_congr (fdisp : String → String) (resX resY : RMap) (fuel : Nat)
    (h : ∀ entry indent, emit_resource fdisp resX fuel entry indent
      = emit_resource fdisp resY fuel entry indent)
    (rs : List ResourceEntry) (indent : Nat) :
    emitResources fdisp resX fuel rs indent = emitResources fdisp resY fuel rs indent := by
  unfold emitResources
  rw [List.map_congr_left (fun e _ => h e indent)]

mutual
theorem emit_tree_congr (fdisp : String → String) (resX resY : RMap) (fuel : Nat)
    (h : ∀ entry indent, emit_resource fdisp resX fuel entry indent
      = emit_resource fdisp resY fuel entry indent) :
    ∀ (t : Node) (indent : Nat),
      emit_namespace_tree fdisp resX fuel t indent = emit_namespace_tree fdisp resY fuel t indent
  | .mk cs rs, indent => by
    rw [emit_namespace_tree, emit_namespace_tree,
        emit_children_congr fdisp resX resY fuel h cs indent,
        emitResources_congr fdisp resX resY fuel h rs indent]

theorem emit_children_congr (fdisp : String → String) (resX resY : RMap) (fuel : Nat)
    (h : ∀ entry indent, emit_resource fdisp resX fuel entry indent
      = emit_resource fdisp resY fuel entry indent) :
    ∀ (cs : ChildMap) (indent : Nat),
      emitChildren fdisp resX fuel cs indent = emitChildren fdisp resY fuel cs indent
  | .nil, _ => rfl
  | .cons k c rest, indent => by
    rw [emitChildren, emitChildren,
        emit_tree_congr fdisp resX resY fuel h c (indent + 4),
        emit_children_congr fdisp resX resY fuel h rest indent]
end

/-- generate_r_module with its let-bindings expanded. -/
theorem generate_r_module_def (fdisp : String → String) (resources : RMap) :
    generate_r_module fdisp resources
      = "\npub mod r \x7b\n"
        ++ (if needsBigDecimal resources then
              "    use core::str::FromStr;\n    use std::sync::LazyLock;\n    use r_resources::BigDecimal;\n"
            else "")
        ++ emit_namespace_tree fdisp resources (rmapEntryCount resources + 1)
            (sort_namespace_tree (build_namespace_tree (collect_entries resources))) 4
        ++ "\x7d\n" := rfl

/-- Claim C1 counterexample: the two-kind table holding string `foo` and bool
`foo` (a leaf-name collision at the root namespace) generates different bytes
under the two hash-map iteration orders, although the two tables are
permutations of each other: the stable sort by leaf name alone cannot order
the two colliding entries, so the collected (hash) order leaks into the
output. -/
theorem C1_counterexample :
    List.Perm
      ([("string", [("foo", ResourceValue.String "a")]),
        ("bool", [("foo", ResourceValue.Bool true)])] : RMap)
      [("bool", [("foo", ResourceValue.Bool true)]),
       ("string", [("foo", ResourceValue.String "a")])]
    ∧ generate_code (fun s => s)
        [("string", [("foo", ResourceValue.String "a")]),
         ("bool", [("foo", ResourceValue.Bool true)])]
      ≠ generate_code (fun s => s)
        [("bool", [("foo", ResourceValue.Bool true)]),
         ("string", [("foo", ResourceValue.String "a")])] := by
  constructor
  · exact List.Perm.swap _ _ _
  · decide

/-- Claim C1 (amended): the generated output is byte-identical across
hash-map iteration orders provided no two collected entries share both the
sanitized namespace path and the sanitized leaf name.  `resB` is a
reordering of `resA` at both nesting levels (the kind tables in any order,
witnessed through the intermediate table `mid` with equal kind keys and
per-kind permuted entry lists); kind keys and per-kind entry keys are
unique, as for the Rust `HashMap`s. -/
theorem C1_output_independent_of_hash_order
    (fdisp : String → String) (resA mid resB : RMap)
    (hf : List.Forall₂ innerPerm resA mid) (hp : mid.Perm resB)
    (hkeys : (resA.map Prod.fst).Nodup)
    (hinner : ∀ p ∈ resA, (p.2.map Prod.fst).Nodup)
    (hleaves : (collect_entries resA).Pairwise entryRne) :
    generate_code fdisp resA = generate_code fdisp resB := by
  have hlk := lookupRV_eq_of hf hp hkeys hinner
  have hintp : ∀ fuel parts visited,
      resolve_interpolation_parts resA fuel parts visited
        = resolve_interpolation_parts resB fuel parts visited :=
    fun fuel parts visited => resolve_interp_congr resA resB hlk fuel parts visited
  have hemit : ∀ fuel e i,
      emit_resource fdisp resA fuel e i = emit_resource fdisp resB fuel e i :=
    fun fuel e i => emit_resource_congr fdisp resA resB fuel (hintp fuel) e i
  have htree := sorted_tree_eq (collect_entries_perm_of hf hp) hleaves
  have hcnt := rmapEntryCount_congr hf hp
  have hbd := needsBigDecimal_congr hf hp hkeys
  unfold generate_code
  rw [generate_r_module_def, generate_r_module_def, htree, hcnt, hbd,
      emit_tree_congr fdisp resA resB (rmapEntryCount resB + 1) (fun e i => hemit _ e i) _ 4]

/-- Witness for the amended C1: a concrete table reordered at the outer
level, with distinct leaf names, satisfies every hypothesis and generates
identical bytes. -/
theorem C1_output_independent_of_hash_order_witness :
    List.Forall₂ innerPerm
      ([("string", [("ui/title", ResourceValue.String "T")]),
        ("bool", [("flag", ResourceValue.Bool false)])] : RMap)
      [("string", [("ui/title", ResourceValue.String "T")]),
       ("bool", [("flag", ResourceValue.Bool false)])]
    ∧ List.Perm
        ([("string", [("ui/title", ResourceValue.String "T")]),
          ("bool", [("flag", ResourceValue.Bool false)])] : RMap)
        [("bool", [("flag", ResourceValue.Bool false)]),
         ("string", [("ui/title", ResourceValue.String "T")])]
    ∧ (([("string", [("ui/title", ResourceValue.String "T")]),
         ("bool", [("flag", ResourceValue.Bool false)])] : RMap).map Prod.fst).Nodup
    ∧ (∀ p ∈ ([("string", [("ui/title", ResourceValue.String "T")]),
          ("bool", [("flag", ResourceValue.Bool false)])] : RMap),
        (p.2.map Prod.fst).Nodup)
    ∧ (collect_entries
        [("string", [("ui/title", ResourceValue.String "T")]),
         ("bool", [("flag", ResourceValue.Bool false)])]).Pairwise entryRne
    ∧ generate_code (fun s => s)
        [("string", [("ui/title", ResourceValue.String "T")]),
         ("bool", [("flag", ResourceValue.Bool false)])]
      = generate_code (fun s => s)
        [("bool", [("flag", ResourceValue.Bool false)]),
         ("string", [("ui/title", ResourceValue.String "T")])] :=
  ⟨List.forall₂_same.mpr (fun x _ => ⟨rfl, List.Perm.refl _⟩),
   List.Perm.swap _ _ _,
   by decide,
   by decide,
   by decide,
   C1_output_independent_of_hash_order (fun s => s)
     [("string", [("ui/title", ResourceValue.String "T")]),
      ("bool", [("flag", ResourceValue.Bool false)])]
     [("string", [("ui/title", ResourceValue.String "T")]),
      ("bool", [("flag", ResourceValue.Bool false)])]
     [("bool", [("flag", ResourceValue.Bool false)]),
      ("string", [("ui/title", ResourceValue.String "T")])]
     (List.forall₂_same.mpr (fun x _ => ⟨rfl, List.Perm.refl _⟩))
     (List.Perm.swap _ _ _)
     (by decide)
     (by decide)
     (by decide)⟩

end RRes
